import Mathlib

/-!
# minitxtd: record parsing and TXT lookup

A shallow embedding of `record.go` (the `record` type, `record.Parse`, `getRecord`).

A Go string is a sequence of bytes and `len` counts bytes.  A string is modelled as a list
of characters, one list element per byte of the Go string; every operation used by the code
(`strings.Split`, `strings.HasPrefix`, `strings.TrimPrefix`, `len`, `==`) acts on the elements
one by one, so the word "character" of the error message in `Parse` is one list element.
-/

set_option autoImplicit false
set_option maxRecDepth 20000

namespace Minitxtd

/-- A Go string, as the list of its bytes. -/
abbrev Str := List Char

/-! ## Go standard library functions used by `record.go` -/

/-- Go `strings.HasPrefix(s, p)`. -/
def HasPrefix (s p : Str) : Bool := p.isPrefixOf s

/-- Go `strings.TrimPrefix(s, p)`: `s` without the leading `p`, or `s` itself. -/
def TrimPrefix (s p : Str) : Str := if HasPrefix s p then s.drop p.length else s

/-- Go `strings.Split(s, sep)` for a separator of one byte (`";"`, `"="` and `"."` in the
source): the pieces of `s` between the occurrences of `sep`; a string without `sep`, the
empty string included, yields the one-element list `[s]`. -/
def Split (s : Str) (sep : Char) : List Str :=
  match s with
  | [] => [[]]
  | ch :: rest =>
    if ch = sep then [] :: Split rest sep
    else
      match Split rest sep with
      | [] => [[ch]]
      | p :: ps => (ch :: p) :: ps

/-- Go `strings.Join(parts, sep)` for a separator of one byte. -/
def Join (parts : List Str) (sep : Char) : Str :=
  match parts with
  | [] => []
  | [p] => p
  | p :: q :: ps => p ++ sep :: Join (q :: ps) sep

/-- The two failure kinds of `strconv.Atoi` (`strconv.ErrSyntax`, `strconv.ErrRange`). -/
inductive NumErrorKind where
  | ErrSyntax
  | ErrRange
deriving DecidableEq, Repr

/-- Go `*strconv.NumError` as returned by `strconv.Atoi`: the rejected text and the kind. -/
structure NumError where
  Num : Str
  Err : NumErrorKind
deriving DecidableEq, Repr

/-- The value of a decimal digit byte, `none` for any other byte. -/
def digitVal (ch : Char) : Option Nat :=
  if '0' ≤ ch ∧ ch ≤ '9' then some (ch.toNat - '0'.toNat) else none

/-- The digit loop of `strconv.ParseUint` in base 10, from accumulator `acc`: the bytes are
read left to right; a byte that is not a digit ends it with `ErrSyntax`, a value that no
longer fits 64 unsigned bits ends it with `ErrRange`, whichever comes first. -/
def digitsVal (acc : Nat) (s : Str) : Except NumErrorKind Nat :=
  match s with
  | [] => .ok acc
  | ch :: rest =>
    match digitVal ch with
    | none => .error .ErrSyntax
    | some d =>
      if 2 ^ 64 ≤ acc * 10 + d then .error .ErrRange
      else digitsVal (acc * 10 + d) rest

/-- Go `strconv.Atoi(s)` with a 64-bit `int`: an optional sign `+` or `-`, then one or more
decimal digits; `ErrSyntax` for any other text, `ErrRange` when the value is outside
`-2^63 .. 2^63 - 1`. -/
def Atoi (s : Str) : Except NumError Int :=
  let body : Str := match s with
    | '+' :: t => t
    | '-' :: t => t
    | _ => s
  let neg : Bool := match s with
    | '-' :: _ => true
    | _ => false
  match body with
  | [] => .error ⟨s, .ErrSyntax⟩
  | _ :: _ =>
    match digitsVal 0 body with
    | .error kind => .error ⟨s, kind⟩
    | .ok n =>
      let v : Int := if neg then -(n : Int) else (n : Int)
      if v < -(2 ^ 63 : Int) ∨ (2 ^ 63 : Int) - 1 < v then .error ⟨s, .ErrRange⟩
      else .ok v

/-- Go `http.StatusFound`. -/
def StatusFound : Int := 302

/-! ## Data model -/

/-- The struct `record` of `record.go`; the default value of every field is Go's zero value.
The field `Type` of the source is named `Typ` here. -/
structure record where
  Version : Str := []
  To : Str := []
  Code : Int := 0
  Typ : Str := []
  Vcs : Str := []
  Website : Str := []
  From : Str := []
  Root : Str := []
  Re : Str := []
deriving DecidableEq, Repr

/-- The struct `Prometheus` of `prometheus.go`: the three configuration fields.  The
unexported fields `once`, `next` and `handler` are run-time handles that `SetDefaults` does
not touch; they are left out. -/
structure Prometheus where
  Enable : Bool := false
  Address : Str := []
  Path : Str := []
deriving DecidableEq, Repr

/-- Modelled from the spec: the declaration of `Config` is not in the sources; the fields
are the enabled-type list `Enable` read by `Parse`, the resolver override address, and the
metrics configuration read by `TXTDirect.ServeHTTP`. -/
structure Config where
  Enable : List Str := []
  Resolver : Str := []
  Prometheus : Prometheus := {}
deriving DecidableEq, Repr

/-- Modelled from the spec: the request context (`*http.Request`), which `Parse` only hands
on to `parsePlaceholders`. -/
structure Request where
  Method : Str := []
  Host : Str := []
  Path : Str := []
deriving DecidableEq, Repr

/-- The error values built in `record.go`, one constructor per message format. -/
inductive Error where
  /-- Message `could not parse status code: %s`. -/
  | statusCode (cause : NumError)
  /-- Message `unhandled version '%s'`. -/
  | unhandledVersion (v : Str)
  /-- Message `arbitrary data not allowed`. -/
  | arbitraryData
  /-- Message `TXT record cannot exceed the maximum of 255 characters`. -/
  | tooLong
  /-- Message `[txtdirect]: to= field is required in dockerv2 type`. -/
  | dockerTo
  /-- Message `%s type is not enabled in configuration`. -/
  | typeNotEnabled (t : Str)
  /-- Message `could not parse TXT record with %d records`. -/
  | recordCount (n : Nat)
  /-- Message `could not parse record: %s`. -/
  | parseRecord (cause : Error)
  /-- An error value handed back unchanged from `parsePlaceholders` or `query`. -/
  | external (msg : Str)
deriving DecidableEq, Repr

/-- The functions of the package that `record.go` calls and that are declared in files
outside the sources: they are parameters of the embedding.  `query` is a DNS lookup whose
answer may change from one call to the next, so it also receives the number of lookups
issued before it. -/
structure Helpers where
  parsePlaceholders : Str → Request → List Str → Except Str Str
  contains : List Str → Str → Bool
  query : Nat → Str → Config → List Str × Option Str

/-! ## `record.Parse` -/

/-- What one iteration of the `for` loop of `Parse` does with the record: `next` is the
normal end of the body or `continue`, `fail` is a `return` with an error.  Both carry the
record as the iteration left it, since `Parse` mutates its receiver in place. -/
inductive Step where
  | next (r : record)
  | fail (r : record) (err : Error)
deriving DecidableEq, Repr

/-- The two checks that follow the `switch` for every recognized directive: the length of
the directive's remaining text `l`, then the dockerv2 rule on the record so far. -/
def afterSwitch (r : record) (l : Str) : Step :=
  if l.length > 255 then .fail r .tooLong
  else if r.Typ = "dockerv2".toList ∧ r.To = [] then .fail r .dockerTo
  else .next r

/-- The body of the `for` loop of `Parse` for one directive `l`. -/
def parseDirective (h : Helpers) (req : Request) (r : record) (l : Str) : Step :=
  if HasPrefix l "code=".toList then
    let l := TrimPrefix l "code=".toList
    match Atoi l with
    | .error e => .fail r (.statusCode e)
    | .ok i => afterSwitch { r with Code := i } l
  else if HasPrefix l "from=".toList then
    let l := TrimPrefix l "from=".toList
    match h.parsePlaceholders l req [] with
    | .error e => .fail r (.external e)
    | .ok l' => afterSwitch { r with From := l' } l
  else if HasPrefix l "re=".toList then
    let l := TrimPrefix l "re=".toList
    afterSwitch { r with Re := l } l
  else if HasPrefix l "root=".toList then
    let l := TrimPrefix l "root=".toList
    afterSwitch { r with Root := l } l
  else if HasPrefix l "to=".toList then
    let l := TrimPrefix l "to=".toList
    match h.parsePlaceholders l req [] with
    | .error e => .fail r (.external e)
    | .ok l' => afterSwitch { r with To := l' } l
  else if HasPrefix l "type=".toList then
    let l := TrimPrefix l "type=".toList
    afterSwitch { r with Typ := l } l
  else if HasPrefix l "v=".toList then
    let l := TrimPrefix l "v=".toList
    let r := { r with Version := l }
    if r.Version ≠ "txtv0".toList then .fail r (.unhandledVersion r.Version)
    else afterSwitch r l
  else if HasPrefix l "vcs=".toList then
    let l := TrimPrefix l "vcs=".toList
    afterSwitch { r with Vcs := l } l
  else if HasPrefix l "website=".toList then
    let l := TrimPrefix l "website=".toList
    afterSwitch { r with Website := l } l
  else
    let tuple := Split l '='
    if tuple.length ≠ 2 then .fail r .arbitraryData
    else .next r

/-- The `for` loop of `Parse` over the directives `s`, stopping at the first `return`. -/
def parseLoop (h : Helpers) (req : Request) (r : record) (s : List Str) : Step :=
  match s with
  | [] => .next r
  | l :: rest =>
    match parseDirective h req r l with
    | .fail r' e => .fail r' e
    | .next r' => parseLoop h req r' rest

/-- The statements of `Parse` after the loop: the defaults of `Code` and `Type`, then the
check of the type against `c.Enable`. -/
def parseFinish (h : Helpers) (c : Config) (r : record) : record × Option Error :=
  let r := if r.Code = 0 then { r with Code := StatusFound } else r
  let r := if r.Typ = [] then { r with Typ := "host".toList } else r
  if !h.contains c.Enable r.Typ then (r, some (.typeNotEnabled r.Typ))
  else (r, none)

/-- The method `(r *record) Parse(str, req, c)` run on the directives `s` already split:
the record as `Parse` leaves it, and the error returned (`none` for `nil`). -/
def parseDirectives (h : Helpers) (r : record) (s : List Str) (req : Request) (c : Config) :
    record × Option Error :=
  match parseLoop h req r s with
  | .fail r' e => (r', some e)
  | .next r' => parseFinish h c r'

/-- The method `(r *record) Parse(str, req, c)`: the record as `Parse` leaves it, and the
error returned (`none` for `nil`). -/
def Parse (h : Helpers) (r : record) (str : Str) (req : Request) (c : Config) :
    record × Option Error :=
  parseDirectives h r (Split str ';') req c

/-! ## `getRecord` -/

/-- How a call of `getRecord` ends: it returns a record and an error, or the access
`txts[0]` to an empty answer list stops it with a run-time panic. -/
inductive Outcome where
  | returned (rec : record) (err : Option Error)
  | panicked
deriving DecidableEq, Repr

/-- The host queried on the retry: `strings.Split(host, ".")`, first element replaced by
`"_"`, joined again with `"."`. -/
def wildcardHost (host : Str) : Str :=
  match Split host '.' with
  | [] => []
  | _ :: labels => Join ("_".toList :: labels) '.'

/-- The end of `getRecord`, from the check `len(txts) != 1` on. -/
def getRecordFinish (h : Helpers) (txts : List Str) (r : Request) (c : Config) : Outcome :=
  match txts with
  | [txt] =>
    match Parse h {} txt r c with
    | (rec, some e) => .returned rec (some (.parseRecord e))
    | (rec, none) => .returned rec none
  | _ => .returned {} (some (.recordCount txts.length))

/-- The wildcard branch of `getRecord`: the second lookup, for the host with its first
label replaced, and the end of the function on its answer.  The first component lists the
hosts passed to `query` so far. -/
def getRecordRetry (h : Helpers) (host : Str) (c : Config) (r : Request) :
    List Str × Outcome :=
  let host' := wildcardHost host
  match h.query 1 host' c with
  | (_, some e) => ([host, host'], .returned {} (some (.external e)))
  | (txts, none) => ([host, host'], getRecordFinish h txts r c)

/-- The function `getRecord(host, ctx, c, r)`: the hosts it passed to `query`, in order,
and how it ended.  The condition `err != nil || txts[0] == ""` reads `txts[0]` only when
`err` is `nil`. -/
def getRecord (h : Helpers) (host : Str) (c : Config) (r : Request) : List Str × Outcome :=
  match h.query 0 host c with
  | (_, some _) => getRecordRetry h host c r
  | ([], none) => ([host], .panicked)
  | (first :: more, none) =>
    if first = [] then getRecordRetry h host c r
    else ([host], getRecordFinish h (first :: more) r c)

/-- An instance of the helpers for evaluating the code on concrete texts that hold no
placeholder token: `contains` is membership in the list and `parsePlaceholders` hands the
value back unchanged, as the placeholder engine does for a value without a `{...}` token;
`query` answers every lookup with one empty string. -/
def plainHelpers : Helpers where
  parsePlaceholders := fun l _ _ => .ok l
  contains := fun array word => array.any (fun x => x == word)
  query := fun _ _ _ => ([[]], none)

/-- The helpers of `plainHelpers` with a lookup that answers from a table of TXT records, as
the DNS server of the test suite does: the text stored for the host, the empty string for a
host without an entry. -/
def tableHelpers (table : List (String × String)) : Helpers :=
  { plainHelpers with
    query := fun _ host _ =>
      match table.find? (fun e => e.1.toList == host) with
      | some e => ([e.2.toList], none)
      | none => ([[]], none) }

/-- The helpers of `plainHelpers` with a lookup that fails on the first call and answers
the second call with the text `txt`. -/
def failFirstHelpers (txt : String) : Helpers :=
  { plainHelpers with
    query := fun n _ _ =>
      if n = 0 then ([], some "lookup failed".toList) else ([txt.toList], none) }

/-- The helpers of `plainHelpers` with a lookup that succeeds with the `n`-th list of
`answers` on its `n`-th call, and with no string once the list is used up. -/
def scriptedHelpers (answers : List (List String)) : Helpers :=
  { plainHelpers with
    query := fun n _ _ => ((answers.getD n []).map String.toList, none) }

/-- The helpers of `plainHelpers` with a placeholder engine that returns an error for every
value holding an opening brace, as the engine does for a label token out of range, and
hands every other value back unchanged. -/
def rejectingHelpers : Helpers :=
  { plainHelpers with
    parsePlaceholders := fun l _ _ =>
      if '\x7b' ∈ l then .error "placeholder out of range".toList else .ok l }

/-! ## `prometheus.go` -/

/-- The constant `prometheusAddr`. -/
def prometheusAddr : Str := "localhost:9183".toList

/-- The constant `prometheusPath`. -/
def prometheusPath : Str := "/metrics".toList

/-- The method `(p *Prometheus) SetDefaults()`: the configuration as the call leaves it. -/
def Prometheus.SetDefaults (p : Prometheus) : Prometheus :=
  let p := if p.Address = [] then { p with Address := prometheusAddr } else p
  let p := if p.Path = [] then { p with Path := prometheusPath } else p
  p

/-! ## `setup.go` -/

/-- Go `http.StatusInternalServerError`. -/
def StatusInternalServerError : Int := 500

/-- The struct `TXTDirect` of `setup.go`.  `W` is the state of the response writer; `Next` is
the method `ServeHTTP(w, r) (int, error)` of the next handler, which may write to `w`.  An
error value is represented by its message, the only thing `ServeHTTP` reads of it. -/
structure TXTDirect (W : Type) where
  Next : W → Request → W × Int × Option Str
  Config : Config

/-- What a call of `TXTDirect.ServeHTTP` leaves behind: the response writer, the returned
status and error, how often the next handler was called, and by how much the counter
`RequestsCount` of the request's host was raised. -/
structure Served (W : Type) where
  writer : W
  status : Int
  err : Option Str
  nextCalls : Nat
  counted : Nat

/-- The method `(rd TXTDirect) ServeHTTP(w, r)`.  `Redirect` is declared outside the sources
and is a parameter: it may write to `w` and returns an error or `nil`; `statusHeader` stands
for `w.Header().Get("Status-Code")`. -/
def TXTDirect.ServeHTTP {W : Type}
    (Redirect : W → Request → Minitxtd.Config → W × Option Str)
    (statusHeader : W → Str) (rd : TXTDirect W) (w : W) (r : Request) : Served W :=
  match Redirect w r rd.Config with
  | (w1, some err) =>
    if err = "option disabled".toList then
      match rd.Next w1 r with
      | (w2, status, e) => ⟨w2, status, e, 1, 0⟩
    else ⟨w1, StatusInternalServerError, some err, 0, 0⟩
  | (w1, none) =>
    if statusHeader w1 = "301".toList ∨ statusHeader w1 = "302".toList then
      if rd.Config.Prometheus.Enable then ⟨w1, 0, none, 0, 1⟩
      else ⟨w1, 0, none, 0, 0⟩
    else ⟨w1, 0, none, 0, 0⟩

/-- The variable `allOptions` of `setup.go`. -/
def allOptions : List Str := ["host".toList, "path".toList, "gometa".toList, "www".toList]

/-- Go `s[i]` as an operand, for an index computed in `int`: `none` stands for the run-time
panic of an index out of range. -/
def indexAt (s : List Str) (i : Int) : Option Str :=
  if 0 ≤ i then s[i.toNat]? else none

/-- Go `s[i] = v`: the slice after the assignment, `none` for an index out of range. -/
def assignAt (s : List Str) (i : Int) (v : Str) : Option (List Str) :=
  if 0 ≤ i ∧ i < s.length then some (s.set i.toNat v) else none

/-- Go `s[:n]` for `n` up to the length of `s`: `none` for a bound out of range. -/
def sliceTo (s : List Str) (n : Int) : Option (List Str) :=
  if 0 ≤ n ∧ n ≤ s.length then some (s.take n.toNat) else none

/-- The inner loop `for i, option := range tmp` of `removeArrayFromArray`, at index `i` with
the elements `rest` of the ranged slice still to visit: at the first element equal to
`toRemove` it runs `tmp[i] = tmp[len(tmp)-1]`, `tmp = tmp[:len(tmp)-1]` and `break`. The result
is `tmp` after the loop, `none` if an index access panics. -/
def removeFirst (tmp : List Str) (toRemove : Str) : Nat → List Str → Option (List Str)
  | _, [] => some tmp
  | i, option :: rest =>
    if option = toRemove then
      match indexAt tmp ((tmp.length : Int) - 1) with
      | none => none
      | some last =>
        match assignAt tmp (i : Int) last with
        | none => none
        | some tmp1 => sliceTo tmp1 ((tmp1.length : Int) - 1)
    else removeFirst tmp toRemove (i + 1) rest

/-- The outer loop `for _, toRemove := range toBeRemoved` of `removeArrayFromArray`. -/
def removeLoop (tmp : List Str) : List Str → Option (List Str)
  | [] => some tmp
  | toRemove :: rest =>
    match removeFirst tmp toRemove 0 tmp with
    | none => none
    | some tmp1 => removeLoop tmp1 rest

/-- The function `removeArrayFromArray(array, toBeRemoved)`: `tmp` starts as a copy of
`array`; the result is `none` if an index access panics. -/
def removeArrayFromArray (array toBeRemoved : List Str) : Option (List Str) :=
  removeLoop array toBeRemoved

/-! ## Vocabulary of the claims -/

/-- The prefixes of the recognized directives, in the order of the `switch` of `Parse`. -/
def keys : List Str :=
  ["code=".toList, "from=".toList, "re=".toList, "root=".toList, "to=".toList,
   "type=".toList, "v=".toList, "vcs=".toList, "website=".toList]

/-- A directive is recognized when it begins with one of the nine prefixes. -/
def recognized (l : Str) : Bool := keys.any (fun k => HasPrefix l k)

/-- The last directive of `s` that begins with `key`, if there is one. -/
def lastDirective (key : Str) (s : List Str) : Option Str :=
  (s.filter (fun l => HasPrefix l key)).getLast?

/-- Every directive of `s` is accepted: the loop of `Parse`, started on `r`, runs through
`s` without returning an error. -/
def directivesAccepted (h : Helpers) (req : Request) (r : record) (s : List Str) : Bool :=
  match parseLoop h req r s with
  | .next _ => true
  | .fail _ _ => false

/-- The raw value of the last directive of `s` that begins with `key`: its text after the
prefix, before any substitution. -/
def rawValue (key : Str) (s : List Str) : Option Str :=
  (lastDirective key s).map (fun l => TrimPrefix l key)

/-- The number a string of decimal digits denotes, read left to right. -/
def decimalValue (digits : Str) : Nat :=
  digits.foldl (fun acc ch => acc * 10 + (ch.toNat - '0'.toNat)) 0

/-- The integer a text denotes in the syntax of `strconv.Atoi` as the claims word it: an
optional sign `+` or `-` followed by one or more decimal digits, with a value in the range
of a 64-bit `int`; `none` for every other text. -/
def integerText (s : Str) : Option Int :=
  let neg : Bool := s.head? = some '-'
  let digits : Str := if s.head? = some '-' ∨ s.head? = some '+' then s.tail else s
  if digits ≠ [] ∧ ∀ ch ∈ digits, '0' ≤ ch ∧ ch ≤ '9' then
    let v : Int := if neg then -(decimalValue digits : Int) else (decimalValue digits : Int)
    if -(2 ^ 63 : Int) ≤ v ∧ v ≤ (2 ^ 63 : Int) - 1 then some v else none
  else none

/-- The byte of a decimal digit. -/
def digitChar (d : Nat) : Char :=
  match d with
  | 0 => '0'
  | 1 => '1'
  | 2 => '2'
  | 3 => '3'
  | 4 => '4'
  | 5 => '5'
  | 6 => '6'
  | 7 => '7'
  | 8 => '8'
  | _ => '9'

/-- The decimal text of a natural number, without leading zeros. -/
def natText (n : Nat) : Str :=
  if n = 0 then ['0'] else (Nat.digits 10 n).reverse.map digitChar

/-- The decimal text of an integer, as `strconv.Itoa` writes it: a `-` for a negative
number, then the digits. -/
def decimalText (n : Int) : Str :=
  if n < 0 then '-' :: natText n.natAbs else natText n.natAbs

/-- How the record `r1` of a first run of the loop, started on the empty record, and the
record `r2` of a second run, started on `R`, stand to each other after the same directives:
each field holds the same value in both runs, or no directive has written it yet, so that
it is still zero in the first run and that of `R` in the second. -/
def synced (R r1 r2 : record) : Prop :=
  (r2.Version = r1.Version ∨ (r1.Version = [] ∧ r2.Version = R.Version)) ∧
  (r2.To = r1.To ∨ (r1.To = [] ∧ r2.To = R.To)) ∧
  (r2.Code = r1.Code ∨ (r1.Code = 0 ∧ r2.Code = R.Code)) ∧
  (r2.Typ = r1.Typ ∨ (r1.Typ = [] ∧ r2.Typ = R.Typ)) ∧
  (r2.Vcs = r1.Vcs ∨ (r1.Vcs = [] ∧ r2.Vcs = R.Vcs)) ∧
  (r2.Website = r1.Website ∨ (r1.Website = [] ∧ r2.Website = R.Website)) ∧
  (r2.From = r1.From ∨ (r1.From = [] ∧ r2.From = R.From)) ∧
  (r2.Root = r1.Root ∨ (r1.Root = [] ∧ r2.Root = R.Root)) ∧
  (r2.Re = r1.Re ∨ (r1.Re = [] ∧ r2.Re = R.Re))

/-- The type `Parse` checks against the enabled list: `"host"` for an empty `Type`. -/
def resolvedType (r : record) : Str := if r.Typ = [] then "host".toList else r.Typ

/-- The range of the HTTP status codes, `100 .. 599`. -/
def validStatus (n : Int) : Prop := 100 ≤ n ∧ n ≤ 599

instance (n : Int) : Decidable (validStatus n) := by unfold validStatus; infer_instance

/-- The leftmost dot-separated label of `host` replaced by `_`: everything up to the first
dot gives way to `_`, the rest of the host stays. -/
def replaceLeftmostLabel (host : Str) : Str :=
  "_".toList ++ host.dropWhile (fun ch => ch ≠ '.')

/-- A configuration that enables exactly the listed types. -/
def enabling (types : List String) : Config := { Enable := types.map String.toList }

/-! ## Lemmas on the string functions -/

theorem Split_ne_nil (s : Str) (sep : Char) : Split s sep ≠ [] := by
  induction s with
  | nil => simp [Split]
  | cons ch rest ih =>
    unfold Split
    split_ifs
    · simp
    · split <;> simp

theorem Split_length (s : Str) (sep : Char) : (Split s sep).length = s.count sep + 1 := by
  induction s with
  | nil => simp [Split]
  | cons ch rest ih =>
    unfold Split
    by_cases hc : ch = sep
    · subst hc
      simp [ih]
    · rw [if_neg hc]
      have hne : (ch == sep) = false := by simpa using hc
      rw [List.count_cons, hne]
      cases hs : Split rest sep with
      | nil => exact absurd hs (Split_ne_nil rest sep)
      | cons p ps =>
        rw [hs] at ih
        simpa using ih

theorem Join_Split (s : Str) (sep : Char) : Join (Split s sep) sep = s := by
  induction s with
  | nil => simp [Split, Join]
  | cons ch rest ih =>
    unfold Split
    by_cases hc : ch = sep
    · subst hc
      rw [if_pos rfl]
      cases hs : Split rest ch with
      | nil => exact absurd hs (Split_ne_nil rest ch)
      | cons p ps =>
        rw [hs] at ih
        simp [Join, ih]
    · rw [if_neg hc]
      cases hs : Split rest sep with
      | nil => exact absurd hs (Split_ne_nil rest sep)
      | cons p ps =>
        rw [hs] at ih
        cases ps with
        | nil => simpa [Join] using ih
        | cons q qs =>
          simp only [Join] at ih ⊢
          simp [ih]

theorem Join_tail_Split (s : Str) (sep : Char) (x p : Str) (ps : List Str)
    (hs : Split s sep = p :: ps) :
    Join (x :: ps) sep = x ++ s.dropWhile (fun ch => ch ≠ sep) := by
  induction s generalizing p ps with
  | nil =>
    simp [Split] at hs
    rw [hs.2]
    simp [Join]
  | cons ch rest ih =>
    unfold Split at hs
    by_cases hc : ch = sep
    · subst hc
      rw [if_pos rfl] at hs
      have hps : ps = Split rest ch := by
        have := (List.cons.inj hs).2
        exact this.symm
      cases hr : Split rest ch with
      | nil => exact absurd hr (Split_ne_nil rest ch)
      | cons q qs =>
        have hj := Join_Split rest ch
        rw [hr] at hj
        rw [hps, hr]
        simp [Join, hj]
    · rw [if_neg hc] at hs
      cases hr : Split rest sep with
      | nil => exact absurd hr (Split_ne_nil rest sep)
      | cons q qs =>
        rw [hr] at hs
        have hps : qs = ps := (List.cons.inj hs).2
        have := ih q qs hr
        rw [hps] at this
        simp [this, hc]

theorem HasPrefix_excl (l p q : Str) (hp : HasPrefix l p = true)
    (hpq : p.isPrefixOf q = false) (hqp : q.isPrefixOf p = false) : HasPrefix l q = false := by
  unfold HasPrefix at *
  cases hq : q.isPrefixOf l with
  | false => rfl
  | true =>
    exfalso
    rw [List.isPrefixOf_iff_prefix] at hp hq
    rcases List.prefix_or_prefix_of_prefix hp hq with h1 | h1
    · have := List.isPrefixOf_iff_prefix.mpr h1
      rw [hpq] at this
      exact Bool.noConfusion this
    · have := List.isPrefixOf_iff_prefix.mpr h1
      rw [hqp] at this
      exact Bool.noConfusion this

theorem Atoi_range (s : Str) (v : Int) (hv : Atoi s = .ok v) :
    -(2 ^ 63 : Int) ≤ v ∧ v ≤ (2 ^ 63 : Int) - 1 := by
  unfold Atoi at hv
  simp only at hv
  split at hv
  · exact Except.noConfusion hv
  · split at hv
    · exact Except.noConfusion hv
    · split_ifs at hv with h1 h2 h3
      all_goals first
        | (cases hv; done)
        | (cases hv; push_neg at *; assumption)

/-! ## `strconv.Atoi` against the integer syntax -/

theorem digitsVal_ok (s : Str) : ∀ acc v, digitsVal acc s = .ok v →
    (∀ ch ∈ s, '0' ≤ ch ∧ ch ≤ '9') ∧
      v = s.foldl (fun acc ch => acc * 10 + (ch.toNat - '0'.toNat)) acc := by
  induction s with
  | nil =>
    intro acc v hv
    simp only [digitsVal] at hv
    cases hv
    simp
  | cons c t ih =>
    intro acc v hv
    unfold digitsVal digitVal at hv
    by_cases hc : '0' ≤ c ∧ c ≤ '9'
    · rw [if_pos hc] at hv
      simp only at hv
      split_ifs at hv with ho
      obtain ⟨h1, h2⟩ := ih _ _ hv
      refine ⟨?_, ?_⟩
      · intro ch hch
        rcases List.mem_cons.mp hch with rfl | hm
        · exact hc
        · exact h1 ch hm
      · rw [List.foldl_cons]
        exact h2
    · rw [if_neg hc] at hv
      cases hv

theorem foldl_digits_ge (s : Str) : ∀ acc,
    acc ≤ s.foldl (fun acc ch => acc * 10 + (ch.toNat - '0'.toNat)) acc := by
  induction s with
  | nil =>
    intro acc
    exact Nat.le_refl _
  | cons c t ih =>
    intro acc
    rw [List.foldl_cons]
    have := ih (acc * 10 + (c.toNat - '0'.toNat))
    omega

theorem digitsVal_of_digits (s : Str) : ∀ acc, (∀ ch ∈ s, '0' ≤ ch ∧ ch ≤ '9') →
    s.foldl (fun acc ch => acc * 10 + (ch.toNat - '0'.toNat)) acc < 2 ^ 64 →
    digitsVal acc s = .ok (s.foldl (fun acc ch => acc * 10 + (ch.toNat - '0'.toNat)) acc) := by
  induction s with
  | nil =>
    intro acc _ _
    rfl
  | cons c t ih =>
    intro acc hd hlt
    have hc : '0' ≤ c ∧ c ≤ '9' := hd c (List.mem_cons_self _ _)
    rw [List.foldl_cons] at hlt ⊢
    have hge := foldl_digits_ge t (acc * 10 + (c.toNat - '0'.toNat))
    unfold digitsVal digitVal
    rw [if_pos hc]
    simp only
    rw [if_neg (by omega)]
    exact ih _ (fun ch hch => hd ch (List.mem_cons_of_mem _ hch)) hlt

theorem int_range_iff (a : Int) :
    ¬ (a < -(2 ^ 63 : Int) ∨ (2 ^ 63 : Int) - 1 < a) ↔
      (-(2 ^ 63 : Int) ≤ a ∧ a ≤ (2 ^ 63 : Int) - 1) := by
  constructor
  · intro hn
    push_neg at hn
    exact hn
  · intro hr
    push_neg
    exact hr

/-- The part of `Atoi` after the sign is stripped, against the digits of the syntax. -/
theorem Atoi_body (s body : Str) (neg : Bool) (n : Int) :
    (match body with
      | [] => (Except.error ⟨s, .ErrSyntax⟩ : Except NumError Int)
      | _ :: _ =>
        match digitsVal 0 body with
        | .error kind => .error ⟨s, kind⟩
        | .ok m =>
          if (if neg then -(m : Int) else (m : Int)) < -(2 ^ 63 : Int) ∨
              (2 ^ 63 : Int) - 1 < (if neg then -(m : Int) else (m : Int)) then
            .error ⟨s, .ErrRange⟩
          else .ok (if neg then -(m : Int) else (m : Int))) = .ok n ↔
    ((if body ≠ [] ∧ ∀ ch ∈ body, '0' ≤ ch ∧ ch ≤ '9' then
        if -(2 ^ 63 : Int) ≤
              (if neg then -(decimalValue body : Int) else (decimalValue body : Int)) ∧
            (if neg then -(decimalValue body : Int) else (decimalValue body : Int)) ≤
              (2 ^ 63 : Int) - 1 then
          some (if neg then -(decimalValue body : Int) else (decimalValue body : Int))
        else none
      else none) = some n) := by
  cases body with
  | nil => simp
  | cons c t =>
    have hne : c :: t ≠ [] := List.cons_ne_nil c t
    cases neg
    all_goals
      simp only [Bool.false_eq_true, if_false, if_true]
      constructor
      · intro hx
        cases hd : digitsVal 0 (c :: t) with
        | error k =>
          rw [hd] at hx
          cases hx
        | ok m =>
          rw [hd] at hx
          obtain ⟨hdig, hm⟩ := digitsVal_ok _ _ _ hd
          have hm' : m = decimalValue (c :: t) := hm
          subst hm'
          simp only at hx
          rw [if_pos ⟨hne, hdig⟩]
          split_ifs at hx with hr
          rw [if_pos ((int_range_iff _).mp hr)]
          cases hx
          rfl
      · intro hx
        split_ifs at hx with hdig hr
        have hlt : decimalValue (c :: t) < 2 ^ 64 := by
          omega
        have hd : digitsVal 0 (c :: t) = .ok (decimalValue (c :: t)) :=
          digitsVal_of_digits (c :: t) 0 hdig.2 hlt
        rw [hd]
        simp only
        rw [if_neg ((int_range_iff _).mpr hr)]
        cases hx
        rfl

/-- `Atoi` returns `n` exactly for the texts that denote `n` in the integer syntax. -/
theorem Atoi_eq (s : Str) (n : Int) : Atoi s = .ok n ↔ integerText s = some n := by
  rcases s with _ | ⟨c, t⟩
  · exact Atoi_body [] [] false n
  · by_cases hm : c = '-'
    · subst hm
      exact Atoi_body ('-' :: t) t true n
    · by_cases hp : c = '+'
      · subst hp
        exact Atoi_body ('+' :: t) t false n
      · have key := Atoi_body (c :: t) (c :: t) false n
        unfold Atoi integerText
        delta Atoi.match_1 Atoi.match_2
        simp only [dif_neg hp, dif_neg hm, List.head?_cons, Option.some.injEq, hm, hp,
          or_self, if_false, decide_False]
        exact key

theorem Atoi_error_of_integerText_none (s : Str) (hs : integerText s = none) :
    ∃ e, Atoi s = .error e := by
  cases ha : Atoi s with
  | error e => exact ⟨e, rfl⟩
  | ok n =>
    have := (Atoi_eq s n).mp ha
    rw [hs] at this
    cases this

/-! ## The decimal text of an integer -/

theorem digitChar_spec (d : Nat) (hd : d < 10) :
    ('0' ≤ digitChar d ∧ digitChar d ≤ '9') ∧ (digitChar d).toNat - '0'.toNat = d := by
  interval_cases d <;> decide

theorem natText_digits (n : Nat) : ∀ ch ∈ natText n, '0' ≤ ch ∧ ch ≤ '9' := by
  intro ch hch
  unfold natText at hch
  split_ifs at hch with h0
  · rw [List.mem_singleton] at hch
    subst hch
    decide
  · rw [List.mem_map] at hch
    obtain ⟨d, hd, rfl⟩ := hch
    exact (digitChar_spec d (Nat.digits_lt_base (by norm_num) (List.mem_reverse.mp hd))).1

theorem natText_ne_nil (n : Nat) : natText n ≠ [] := by
  unfold natText
  split_ifs with h0
  · exact List.cons_ne_nil _ _
  · intro hx
    rw [List.map_eq_nil_iff, List.reverse_eq_nil_iff] at hx
    exact absurd hx (Nat.digits_ne_nil_iff_ne_zero.mpr h0)

theorem foldr_digits (L : List Nat) (hL : ∀ d ∈ L, d < 10) :
    L.foldr (fun d acc => acc * 10 + ((digitChar d).toNat - '0'.toNat)) 0 = Nat.ofDigits 10 L := by
  induction L with
  | nil => rfl
  | cons d t ih =>
    rw [List.foldr_cons, ih (fun x hx => hL x (List.mem_cons_of_mem _ hx)), Nat.ofDigits_cons,
      (digitChar_spec d (hL d (List.mem_cons_self _ _))).2]
    omega

theorem decimalValue_natText (n : Nat) : decimalValue (natText n) = n := by
  unfold natText
  split_ifs with h0
  · subst h0
    rfl
  · unfold decimalValue
    rw [List.foldl_map, List.foldl_reverse,
      foldr_digits _ (fun d hd => Nat.digits_lt_base (by norm_num) hd), Nat.ofDigits_digits]

theorem natText_length (n : Nat) (hn : n ≤ 2 ^ 63) : (natText n).length ≤ 20 := by
  unfold natText
  split_ifs with h0
  · simp
  · rw [List.length_map, List.length_reverse]
    by_contra hlen
    have h1 := Nat.base_pow_length_digits_le 10 n (by norm_num) h0
    have h2 : 10 ^ 21 ≤ 10 ^ (Nat.digits 10 n).length :=
      Nat.pow_le_pow_right (by norm_num) (by omega)
    have h3 : (10 : Nat) ^ 21 ≤ 10 * 2 ^ 63 := by
      calc (10 : Nat) ^ 21 ≤ 10 ^ (Nat.digits 10 n).length := h2
        _ ≤ 10 * n := h1
        _ ≤ 10 * 2 ^ 63 := Nat.mul_le_mul_left 10 hn
    exact absurd h3 (by norm_num)

theorem integerText_natText (n : Nat) (hn : (n : Int) ≤ (2 ^ 63 : Int) - 1) :
    integerText (natText n) = some (n : Int) := by
  have hd := natText_digits n
  have hne := natText_ne_nil n
  have hhead : ¬ ((natText n).head? = some '-' ∨ (natText n).head? = some '+') := by
    intro hx
    cases hL : natText n with
    | nil => exact hne hL
    | cons c t =>
      rw [hL] at hx hd
      have hc := hd c (List.mem_cons_self _ _)
      simp only [List.head?_cons, Option.some.injEq] at hx
      rcases hx with rfl | rfl
      · exact absurd hc (by decide)
      · exact absurd hc (by decide)
  have hneg : ¬ ((natText n).head? = some '-') := fun hx => hhead (Or.inl hx)
  have hplus : ¬ ((natText n).head? = some '+') := fun hx => hhead (Or.inr hx)
  unfold integerText
  simp only [hneg, hplus, or_self, if_false, decide_False, Bool.false_eq_true]
  rw [if_pos ⟨hne, hd⟩, decimalValue_natText, if_pos (by omega)]

theorem integerText_decimalText (n : Int) (hlo : -(2 ^ 63 : Int) ≤ n)
    (hhi : n ≤ (2 ^ 63 : Int) - 1) : integerText (decimalText n) = some n := by
  unfold decimalText
  by_cases hn : n < 0
  · rw [if_pos hn]
    have hd := natText_digits n.natAbs
    have hne := natText_ne_nil n.natAbs
    unfold integerText
    simp only [List.head?_cons, true_or, if_true, List.tail_cons, decide_True]
    rw [if_pos ⟨hne, hd⟩, decimalValue_natText, if_pos (by omega)]
    congr 1
    omega
  · rw [if_neg hn]
    have := integerText_natText n.natAbs (by omega)
    rw [this]
    congr 1
    omega

theorem decimalText_length (n : Int) (hlo : -(2 ^ 63 : Int) ≤ n)
    (hhi : n ≤ (2 ^ 63 : Int) - 1) : (decimalText n).length ≤ 21 := by
  unfold decimalText
  have := natText_length n.natAbs (by omega)
  split_ifs
  · simp only [List.length_cons]
    omega
  · omega

theorem integerText_chars (v : Str) (n : Int) (hv : integerText v = some n) :
    ∀ ch ∈ v, ch = '+' ∨ ch = '-' ∨ ('0' ≤ ch ∧ ch ≤ '9') := by
  have hdig : ∀ ch ∈ (if v.head? = some '-' ∨ v.head? = some '+' then v.tail else v),
      '0' ≤ ch ∧ ch ≤ '9' := by
    by_contra hnot
    unfold integerText at hv
    simp only at hv
    rw [if_neg (fun h => hnot h.2)] at hv
    cases hv
  intro ch hch
  by_cases hs : v.head? = some '-' ∨ v.head? = some '+'
  · rw [if_pos hs] at hdig
    cases v with
    | nil => cases hch
    | cons c t =>
      simp only [List.head?_cons, Option.some.injEq] at hs
      rcases List.mem_cons.mp hch with rfl | hm
      · rcases hs with hs | hs
        · exact Or.inr (Or.inl hs)
        · exact Or.inl hs
      · exact Or.inr (Or.inr (hdig ch hm))
  · rw [if_neg hs] at hdig
    exact Or.inr (Or.inr (hdig ch hch))

/-! ## The body of the loop, case by case -/

theorem recognized_false_iff (l : Str) :
    recognized l = false ↔
      HasPrefix l "code=".toList = false ∧ HasPrefix l "from=".toList = false ∧
      HasPrefix l "re=".toList = false ∧ HasPrefix l "root=".toList = false ∧
      HasPrefix l "to=".toList = false ∧ HasPrefix l "type=".toList = false ∧
      HasPrefix l "v=".toList = false ∧ HasPrefix l "vcs=".toList = false ∧
      HasPrefix l "website=".toList = false := by
  simp [recognized, keys]

theorem recognized_of_mem_keys (l k : Str) (hk : k ∈ keys) (hp : HasPrefix l k = true) :
    recognized l = true := by
  unfold recognized
  rw [List.any_eq_true]
  exact ⟨k, hk, hp⟩

theorem parseDirective_unknown (h : Helpers) (req : Request) (r : record) (l : Str)
    (hu : recognized l = false) :
    parseDirective h req r l =
      if (Split l '=').length ≠ 2 then .fail r .arbitraryData else .next r := by
  obtain ⟨h1, h2, h3, h4, h5, h6, h7, h8, h9⟩ := (recognized_false_iff l).mp hu
  simp only [parseDirective, h1, h2, h3, h4, h5, h6, h7, h8, h9, Bool.false_eq_true, ↓reduceIte]

theorem parseDirective_code (h : Helpers) (req : Request) (r : record) (l : Str)
    (hp : HasPrefix l "code=".toList = true) :
    parseDirective h req r l =
      match Atoi (TrimPrefix l "code=".toList) with
      | .error e => .fail r (.statusCode e)
      | .ok i => afterSwitch { r with Code := i } (TrimPrefix l "code=".toList) := by
  simp only [parseDirective, hp, Bool.false_eq_true, ↓reduceIte]

theorem parseDirective_from (h : Helpers) (req : Request) (r : record) (l : Str)
    (hp : HasPrefix l "from=".toList = true) :
    parseDirective h req r l =
      match h.parsePlaceholders (TrimPrefix l "from=".toList) req [] with
      | .error e => .fail r (.external e)
      | .ok l' => afterSwitch { r with From := l' } (TrimPrefix l "from=".toList) := by
  have e0 : HasPrefix l "code=".toList = false :=
    HasPrefix_excl l _ _ hp (by decide) (by decide)
  simp only [parseDirective, hp, e0, Bool.false_eq_true, ↓reduceIte]

theorem parseDirective_re (h : Helpers) (req : Request) (r : record) (l : Str)
    (hp : HasPrefix l "re=".toList = true) :
    parseDirective h req r l =
      afterSwitch { r with Re := (TrimPrefix l "re=".toList) } (TrimPrefix l "re=".toList) := by
  have e0 : HasPrefix l "code=".toList = false :=
    HasPrefix_excl l _ _ hp (by decide) (by decide)
  have e1 : HasPrefix l "from=".toList = false :=
    HasPrefix_excl l _ _ hp (by decide) (by decide)
  simp only [parseDirective, hp, e0, e1, Bool.false_eq_true, ↓reduceIte]

theorem parseDirective_root (h : Helpers) (req : Request) (r : record) (l : Str)
    (hp : HasPrefix l "root=".toList = true) :
    parseDirective h req r l =
      afterSwitch { r with Root := (TrimPrefix l "root=".toList) } (TrimPrefix l "root=".toList) := by
  have e0 : HasPrefix l "code=".toList = false :=
    HasPrefix_excl l _ _ hp (by decide) (by decide)
  have e1 : HasPrefix l "from=".toList = false :=
    HasPrefix_excl l _ _ hp (by decide) (by decide)
  have e2 : HasPrefix l "re=".toList = false :=
    HasPrefix_excl l _ _ hp (by decide) (by decide)
  simp only [parseDirective, hp, e0, e1, e2, Bool.false_eq_true, ↓reduceIte]

theorem parseDirective_to (h : Helpers) (req : Request) (r : record) (l : Str)
    (hp : HasPrefix l "to=".toList = true) :
    parseDirective h req r l =
      match h.parsePlaceholders (TrimPrefix l "to=".toList) req [] with
      | .error e => .fail r (.external e)
      | .ok l' => afterSwitch { r with To := l' } (TrimPrefix l "to=".toList) := by
  have e0 : HasPrefix l "code=".toList = false :=
    HasPrefix_excl l _ _ hp (by decide) (by decide)
  have e1 : HasPrefix l "from=".toList = false :=
    HasPrefix_excl l _ _ hp (by decide) (by decide)
  have e2 : HasPrefix l "re=".toList = false :=
    HasPrefix_excl l _ _ hp (by decide) (by decide)
  have e3 : HasPrefix l "root=".toList = false :=
    HasPrefix_excl l _ _ hp (by decide) (by decide)
  simp only [parseDirective, hp, e0, e1, e2, e3, Bool.false_eq_true, ↓reduceIte]

theorem parseDirective_type (h : Helpers) (req : Request) (r : record) (l : Str)
    (hp : HasPrefix l "type=".toList = true) :
    parseDirective h req r l =
      afterSwitch { r with Typ := (TrimPrefix l "type=".toList) } (TrimPrefix l "type=".toList) := by
  have e0 : HasPrefix l "code=".toList = false :=
    HasPrefix_excl l _ _ hp (by decide) (by decide)
  have e1 : HasPrefix l "from=".toList = false :=
    HasPrefix_excl l _ _ hp (by decide) (by decide)
  have e2 : HasPrefix l "re=".toList = false :=
    HasPrefix_excl l _ _ hp (by decide) (by decide)
  have e3 : HasPrefix l "root=".toList = false :=
    HasPrefix_excl l _ _ hp (by decide) (by decide)
  have e4 : HasPrefix l "to=".toList = false :=
    HasPrefix_excl l _ _ hp (by decide) (by decide)
  simp only [parseDirective, hp, e0, e1, e2, e3, e4, Bool.false_eq_true, ↓reduceIte]

theorem parseDirective_v (h : Helpers) (req : Request) (r : record) (l : Str)
    (hp : HasPrefix l "v=".toList = true) :
    parseDirective h req r l =
      if (TrimPrefix l "v=".toList) ≠ "txtv0".toList then
        .fail { r with Version := (TrimPrefix l "v=".toList) } (.unhandledVersion (TrimPrefix l "v=".toList))
      else afterSwitch { r with Version := (TrimPrefix l "v=".toList) } (TrimPrefix l "v=".toList) := by
  have e0 : HasPrefix l "code=".toList = false :=
    HasPrefix_excl l _ _ hp (by decide) (by decide)
  have e1 : HasPrefix l "from=".toList = false :=
    HasPrefix_excl l _ _ hp (by decide) (by decide)
  have e2 : HasPrefix l "re=".toList = false :=
    HasPrefix_excl l _ _ hp (by decide) (by decide)
  have e3 : HasPrefix l "root=".toList = false :=
    HasPrefix_excl l _ _ hp (by decide) (by decide)
  have e4 : HasPrefix l "to=".toList = false :=
    HasPrefix_excl l _ _ hp (by decide) (by decide)
  have e5 : HasPrefix l "type=".toList = false :=
    HasPrefix_excl l _ _ hp (by decide) (by decide)
  simp only [parseDirective, hp, e0, e1, e2, e3, e4, e5, Bool.false_eq_true, ↓reduceIte]

theorem parseDirective_vcs (h : Helpers) (req : Request) (r : record) (l : Str)
    (hp : HasPrefix l "vcs=".toList = true) :
    parseDirective h req r l =
      afterSwitch { r with Vcs := (TrimPrefix l "vcs=".toList) } (TrimPrefix l "vcs=".toList) := by
  have e0 : HasPrefix l "code=".toList = false :=
    HasPrefix_excl l _ _ hp (by decide) (by decide)
  have e1 : HasPrefix l "from=".toList = false :=
    HasPrefix_excl l _ _ hp (by decide) (by decide)
  have e2 : HasPrefix l "re=".toList = false :=
    HasPrefix_excl l _ _ hp (by decide) (by decide)
  have e3 : HasPrefix l "root=".toList = false :=
    HasPrefix_excl l _ _ hp (by decide) (by decide)
  have e4 : HasPrefix l "to=".toList = false :=
    HasPrefix_excl l _ _ hp (by decide) (by decide)
  have e5 : HasPrefix l "type=".toList = false :=
    HasPrefix_excl l _ _ hp (by decide) (by decide)
  have e6 : HasPrefix l "v=".toList = false :=
    HasPrefix_excl l _ _ hp (by decide) (by decide)
  simp only [parseDirective, hp, e0, e1, e2, e3, e4, e5, e6, Bool.false_eq_true, ↓reduceIte]

theorem parseDirective_website (h : Helpers) (req : Request) (r : record) (l : Str)
    (hp : HasPrefix l "website=".toList = true) :
    parseDirective h req r l =
      afterSwitch { r with Website := (TrimPrefix l "website=".toList) } (TrimPrefix l "website=".toList) := by
  have e0 : HasPrefix l "code=".toList = false :=
    HasPrefix_excl l _ _ hp (by decide) (by decide)
  have e1 : HasPrefix l "from=".toList = false :=
    HasPrefix_excl l _ _ hp (by decide) (by decide)
  have e2 : HasPrefix l "re=".toList = false :=
    HasPrefix_excl l _ _ hp (by decide) (by decide)
  have e3 : HasPrefix l "root=".toList = false :=
    HasPrefix_excl l _ _ hp (by decide) (by decide)
  have e4 : HasPrefix l "to=".toList = false :=
    HasPrefix_excl l _ _ hp (by decide) (by decide)
  have e5 : HasPrefix l "type=".toList = false :=
    HasPrefix_excl l _ _ hp (by decide) (by decide)
  have e6 : HasPrefix l "v=".toList = false :=
    HasPrefix_excl l _ _ hp (by decide) (by decide)
  have e7 : HasPrefix l "vcs=".toList = false :=
    HasPrefix_excl l _ _ hp (by decide) (by decide)
  simp only [parseDirective, hp, e0, e1, e2, e3, e4, e5, e6, e7, Bool.false_eq_true, ↓reduceIte]

/-- Every directive is unrecognized or begins with one of the nine prefixes. -/
theorem directive_cases (l : Str) :
    recognized l = false ∨ HasPrefix l "code=".toList = true ∨
      HasPrefix l "from=".toList = true ∨ HasPrefix l "re=".toList = true ∨
      HasPrefix l "root=".toList = true ∨ HasPrefix l "to=".toList = true ∨
      HasPrefix l "type=".toList = true ∨ HasPrefix l "v=".toList = true ∨
      HasPrefix l "vcs=".toList = true ∨ HasPrefix l "website=".toList = true := by
  cases hr : recognized l with
  | false => exact Or.inl rfl
  | true =>
    right
    simpa [recognized, keys] using hr

theorem afterSwitch_next (r r' : record) (l : Str) (hn : afterSwitch r l = .next r') :
    r' = r ∧ l.length ≤ 255 ∧ ¬ (r.Typ = "dockerv2".toList ∧ r.To = []) := by
  unfold afterSwitch at hn
  split_ifs at hn with h1 h2
  cases hn
  exact ⟨rfl, by omega, h2⟩

theorem afterSwitch_fail (r r' : record) (l : Str) (e : Error)
    (hf : afterSwitch r l = .fail r' e) :
    r' = r ∧ ((e = .tooLong ∧ 255 < l.length) ∨
      (e = .dockerTo ∧ r.Typ = "dockerv2".toList ∧ r.To = [])) := by
  unfold afterSwitch at hf
  split_ifs at hf with h1 h2
  · cases hf
    exact ⟨rfl, Or.inl ⟨rfl, h1⟩⟩
  · cases hf
    exact ⟨rfl, Or.inr ⟨rfl, h2.1, h2.2⟩⟩

/-- What a successful iteration does: an unrecognized directive leaves the record alone, a
recognized one sets its own field and leaves a record that satisfies the dockerv2 rule. -/
theorem parseDirective_next (h : Helpers) (req : Request) (r r' : record) (l : Str)
    (hn : parseDirective h req r l = .next r') :
    (recognized l = false ∧ r' = r) ∨
    (¬ (r'.Typ = "dockerv2".toList ∧ r'.To = []) ∧
      ((HasPrefix l "code=".toList = true ∧
          ∃ i, Atoi (TrimPrefix l "code=".toList) = .ok i ∧ r' = { r with Code := i }) ∨
       (HasPrefix l "from=".toList = true ∧
          ∃ v, h.parsePlaceholders (TrimPrefix l "from=".toList) req [] = .ok v ∧
            r' = { r with From := v }) ∨
       (HasPrefix l "re=".toList = true ∧ r' = { r with Re := TrimPrefix l "re=".toList }) ∨
       (HasPrefix l "root=".toList = true ∧
          r' = { r with Root := TrimPrefix l "root=".toList }) ∨
       (HasPrefix l "to=".toList = true ∧
          ∃ v, h.parsePlaceholders (TrimPrefix l "to=".toList) req [] = .ok v ∧
            r' = { r with To := v }) ∨
       (HasPrefix l "type=".toList = true ∧
          r' = { r with Typ := TrimPrefix l "type=".toList }) ∨
       (HasPrefix l "v=".toList = true ∧ TrimPrefix l "v=".toList = "txtv0".toList ∧
          r' = { r with Version := "txtv0".toList }) ∨
       (HasPrefix l "vcs=".toList = true ∧ r' = { r with Vcs := TrimPrefix l "vcs=".toList }) ∨
       (HasPrefix l "website=".toList = true ∧
          r' = { r with Website := TrimPrefix l "website=".toList }))) := by
  rcases directive_cases l with hu | hp | hp | hp | hp | hp | hp | hp | hp | hp
  · rw [parseDirective_unknown h req r l hu] at hn
    split_ifs at hn
    cases hn
    exact Or.inl ⟨hu, rfl⟩
  · rw [parseDirective_code h req r l hp] at hn
    split at hn
    · cases hn
    · rename_i i hi
      obtain ⟨e1, -, e3⟩ := afterSwitch_next _ _ _ hn
      subst e1
      exact Or.inr ⟨e3, Or.inl ⟨hp, i, hi, rfl⟩⟩
  · rw [parseDirective_from h req r l hp] at hn
    split at hn
    · cases hn
    · rename_i v hv
      obtain ⟨e1, -, e3⟩ := afterSwitch_next _ _ _ hn
      subst e1
      exact Or.inr ⟨e3, Or.inr (Or.inl ⟨hp, v, hv, rfl⟩)⟩
  · rw [parseDirective_re h req r l hp] at hn
    obtain ⟨e1, -, e3⟩ := afterSwitch_next _ _ _ hn
    subst e1
    exact Or.inr ⟨e3, Or.inr (Or.inr (Or.inl ⟨hp, rfl⟩))⟩
  · rw [parseDirective_root h req r l hp] at hn
    obtain ⟨e1, -, e3⟩ := afterSwitch_next _ _ _ hn
    subst e1
    exact Or.inr ⟨e3, Or.inr (Or.inr (Or.inr (Or.inl ⟨hp, rfl⟩)))⟩
  · rw [parseDirective_to h req r l hp] at hn
    split at hn
    · cases hn
    · rename_i v hv
      obtain ⟨e1, -, e3⟩ := afterSwitch_next _ _ _ hn
      subst e1
      exact Or.inr ⟨e3, Or.inr (Or.inr (Or.inr (Or.inr (Or.inl ⟨hp, v, hv, rfl⟩))))⟩
  · rw [parseDirective_type h req r l hp] at hn
    obtain ⟨e1, -, e3⟩ := afterSwitch_next _ _ _ hn
    subst e1
    exact Or.inr ⟨e3, Or.inr (Or.inr (Or.inr (Or.inr (Or.inr (Or.inl ⟨hp, rfl⟩)))))⟩
  · rw [parseDirective_v h req r l hp] at hn
    split_ifs at hn with hv
    push_neg at hv
    obtain ⟨e1, -, e3⟩ := afterSwitch_next _ _ _ hn
    subst e1
    refine Or.inr ⟨e3, Or.inr (Or.inr (Or.inr (Or.inr (Or.inr (Or.inr (Or.inl ⟨hp, hv, ?_⟩))))))⟩
    rw [hv]
  · rw [parseDirective_vcs h req r l hp] at hn
    obtain ⟨e1, -, e3⟩ := afterSwitch_next _ _ _ hn
    subst e1
    exact Or.inr ⟨e3, Or.inr (Or.inr (Or.inr (Or.inr (Or.inr (Or.inr (Or.inr
      (Or.inl ⟨hp, rfl⟩)))))))⟩
  · rw [parseDirective_website h req r l hp] at hn
    obtain ⟨e1, -, e3⟩ := afterSwitch_next _ _ _ hn
    subst e1
    exact Or.inr ⟨e3, Or.inr (Or.inr (Or.inr (Or.inr (Or.inr (Or.inr (Or.inr
      (Or.inr ⟨hp, rfl⟩)))))))⟩

/-- Where an error of one iteration comes from. -/
theorem parseDirective_fail (h : Helpers) (req : Request) (r r' : record) (l : Str)
    (e : Error) (hf : parseDirective h req r l = .fail r' e) :
    (recognized l = false ∧ e = .arbitraryData ∧ l.count '=' ≠ 1) ∨
    (HasPrefix l "code=".toList = true ∧
      ∃ ne, Atoi (TrimPrefix l "code=".toList) = .error ne ∧ e = .statusCode ne) ∨
    (HasPrefix l "from=".toList = true ∧
      ∃ m, h.parsePlaceholders (TrimPrefix l "from=".toList) req [] = .error m ∧
        e = .external m) ∨
    (HasPrefix l "to=".toList = true ∧
      ∃ m, h.parsePlaceholders (TrimPrefix l "to=".toList) req [] = .error m ∧
        e = .external m) ∨
    (HasPrefix l "v=".toList = true ∧ TrimPrefix l "v=".toList ≠ "txtv0".toList ∧
      e = .unhandledVersion (TrimPrefix l "v=".toList)) ∨
    (e = .tooLong ∧ ∃ k ∈ keys, HasPrefix l k = true ∧ 255 < (TrimPrefix l k).length) ∨
    (e = .dockerTo ∧ recognized l = true ∧
      r'.Typ = "dockerv2".toList ∧ r'.To = []) := by
  have tail : ∀ (k : Str) (r0 : record), k ∈ keys → HasPrefix l k = true →
      afterSwitch r0 (TrimPrefix l k) = .fail r' e →
      (e = .tooLong ∧ ∃ k ∈ keys, HasPrefix l k = true ∧ 255 < (TrimPrefix l k).length) ∨
      (e = .dockerTo ∧ recognized l = true ∧ r'.Typ = "dockerv2".toList ∧ r'.To = []) := by
    intro k r0 hk hp ha
    obtain ⟨e1, e2 | e2⟩ := afterSwitch_fail _ _ _ _ ha
    · exact Or.inl ⟨e2.1, k, hk, hp, e2.2⟩
    · subst e1
      exact Or.inr ⟨e2.1, recognized_of_mem_keys l k hk hp, e2.2.1, e2.2.2⟩
  rcases directive_cases l with hu | hp | hp | hp | hp | hp | hp | hp | hp | hp
  · rw [parseDirective_unknown h req r l hu] at hf
    split_ifs at hf with hl
    cases hf
    refine Or.inl ⟨hu, rfl, ?_⟩
    rw [Split_length] at hl
    omega
  · rw [parseDirective_code h req r l hp] at hf
    split at hf
    · rename_i ne hne
      cases hf
      exact Or.inr (Or.inl ⟨hp, ne, hne, rfl⟩)
    · exact Or.inr (Or.inr (Or.inr (Or.inr (Or.inr
        (tail _ _ (by simp [keys]) hp hf)))))
  · rw [parseDirective_from h req r l hp] at hf
    split at hf
    · rename_i m hm
      cases hf
      exact Or.inr (Or.inr (Or.inl ⟨hp, m, hm, rfl⟩))
    · exact Or.inr (Or.inr (Or.inr (Or.inr (Or.inr
        (tail _ _ (by simp [keys]) hp hf)))))
  · rw [parseDirective_re h req r l hp] at hf
    exact Or.inr (Or.inr (Or.inr (Or.inr (Or.inr (tail _ _ (by simp [keys]) hp hf)))))
  · rw [parseDirective_root h req r l hp] at hf
    exact Or.inr (Or.inr (Or.inr (Or.inr (Or.inr (tail _ _ (by simp [keys]) hp hf)))))
  · rw [parseDirective_to h req r l hp] at hf
    split at hf
    · rename_i m hm
      cases hf
      exact Or.inr (Or.inr (Or.inr (Or.inl ⟨hp, m, hm, rfl⟩)))
    · exact Or.inr (Or.inr (Or.inr (Or.inr (Or.inr
        (tail _ _ (by simp [keys]) hp hf)))))
  · rw [parseDirective_type h req r l hp] at hf
    exact Or.inr (Or.inr (Or.inr (Or.inr (Or.inr (tail _ _ (by simp [keys]) hp hf)))))
  · rw [parseDirective_v h req r l hp] at hf
    split_ifs at hf with hv
    · cases hf
      exact Or.inr (Or.inr (Or.inr (Or.inr (Or.inl ⟨hp, hv, rfl⟩))))
    · exact Or.inr (Or.inr (Or.inr (Or.inr (Or.inr
        (tail _ _ (by simp [keys]) hp hf)))))
  · rw [parseDirective_vcs h req r l hp] at hf
    exact Or.inr (Or.inr (Or.inr (Or.inr (Or.inr (tail _ _ (by simp [keys]) hp hf)))))
  · rw [parseDirective_website h req r l hp] at hf
    exact Or.inr (Or.inr (Or.inr (Or.inr (Or.inr (tail _ _ (by simp [keys]) hp hf)))))

/-! ## The loop -/

/-- An invariant kept by every successful iteration holds when the loop ends normally. -/
theorem parseLoop_inv (h : Helpers) (req : Request) (inv : record → Prop) (s : List Str)
    (hstep : ∀ l ∈ s, ∀ r r', inv r → parseDirective h req r l = .next r' → inv r') :
    ∀ r r', inv r → parseLoop h req r s = .next r' → inv r' := by
  induction s with
  | nil =>
    intro r r' hr hl
    simp only [parseLoop] at hl
    cases hl
    exact hr
  | cons l rest ih =>
    intro r r' hr hl
    simp only [parseLoop] at hl
    split at hl
    · cases hl
    · rename_i r1 h1
      exact ih (fun l' hl' => hstep l' (List.mem_cons_of_mem _ hl')) r1 r'
        (hstep l (List.mem_cons_self _ _) r r1 hr h1) hl

/-- A directive that fails on every record satisfying a kept invariant fails the loop. -/
theorem parseLoop_fail_of_mem (h : Helpers) (req : Request) (inv : record → Prop)
    (s : List Str) (d : Str) (hd : d ∈ s)
    (hstep : ∀ l ∈ s, ∀ r r', inv r → parseDirective h req r l = .next r' → inv r')
    (hf : ∀ r, inv r → ∃ r' e, parseDirective h req r d = .fail r' e) :
    ∀ r, inv r → ∃ r' e, parseLoop h req r s = .fail r' e := by
  induction s with
  | nil => exact absurd hd (List.not_mem_nil d)
  | cons l rest ih =>
    intro r hr
    simp only [parseLoop]
    cases h1 : parseDirective h req r l with
    | fail r1 e => exact ⟨r1, e, rfl⟩
    | next r1 =>
      have hr1 := hstep l (List.mem_cons_self _ _) r r1 hr h1
      rcases List.mem_cons.mp hd with hdl | hdr
      · subst hdl
        obtain ⟨r2, e, h2⟩ := hf r hr
        rw [h1] at h2
        cases h2
      · exact ih hdr (fun l' hl' => hstep l' (List.mem_cons_of_mem _ hl')) r1 hr1

/-- The error of a failed loop is the error of one of its directives. -/
theorem parseLoop_fail_source (h : Helpers) (req : Request) (s : List Str) :
    ∀ r r' e, parseLoop h req r s = .fail r' e →
      ∃ d ∈ s, ∃ r0, parseDirective h req r0 d = .fail r' e := by
  induction s with
  | nil =>
    intro r r' e hl
    simp only [parseLoop] at hl
    cases hl
  | cons l rest ih =>
    intro r r' e hl
    simp only [parseLoop] at hl
    split at hl
    · rename_i r1 e1 h1
      cases hl
      exact ⟨l, List.mem_cons_self _ _, r, h1⟩
    · rename_i r1 h1
      obtain ⟨d, hd, r0, h0⟩ := ih r1 r' e hl
      exact ⟨d, List.mem_cons_of_mem _ hd, r0, h0⟩

theorem lastDirective_cons (key l : Str) (rest : List Str) :
    lastDirective key (l :: rest) =
      match lastDirective key rest with
      | some d => some d
      | none => if HasPrefix l key then some l else none := by
  unfold lastDirective
  rw [List.filter_cons]
  cases hk : HasPrefix l key with
  | false =>
    simp only [Bool.false_eq_true, if_false]
    generalize (List.filter (fun l => HasPrefix l key) rest).getLast? = o
    cases o <;> rfl
  | true =>
    simp only [if_true]
    cases hf : List.filter (fun l => HasPrefix l key) rest with
    | nil => rfl
    | cons a t =>
      rw [List.getLast?_cons_cons, List.getLast?_eq_getLast _ (List.cons_ne_nil a t)]

theorem lastDirective_eq_none (key : Str) (s : List Str) :
    lastDirective key s = none ↔ ∀ l ∈ s, HasPrefix l key = false := by
  unfold lastDirective
  rw [List.getLast?_eq_none_iff, List.filter_eq_nil_iff]
  simp

theorem lastDirective_some (key d : Str) (s : List Str) (hl : lastDirective key s = some d) :
    d ∈ s ∧ HasPrefix d key = true := by
  unfold lastDirective at hl
  have := List.mem_of_getLast?_eq_some hl
  simpa using List.mem_filter.mp this

/-- A field that only the directives with prefix `key` touch holds, after the loop, what the
last such directive put there, or its initial value when there is none. -/
theorem parseLoop_field {α : Type} (h : Helpers) (req : Request) (f : record → α) (key : Str)
    (V : Str → α → Prop)
    (hframe : ∀ r l r', HasPrefix l key = false → parseDirective h req r l = .next r' →
      f r' = f r)
    (hset : ∀ r l r', HasPrefix l key = true → parseDirective h req r l = .next r' →
      V l (f r')) (s : List Str) :
    ∀ r r', parseLoop h req r s = .next r' →
      match lastDirective key s with
      | none => f r' = f r
      | some l => V l (f r') := by
  induction s with
  | nil =>
    intro r r' hl
    simp only [parseLoop] at hl
    cases hl
    simp [lastDirective]
  | cons l rest ih =>
    intro r r' hl
    simp only [parseLoop] at hl
    split at hl
    · cases hl
    · rename_i r1 h1
      have := ih r1 r' hl
      rw [lastDirective_cons]
      cases hlast : lastDirective key rest with
      | some d =>
        rw [hlast] at this
        exact this
      | none =>
        rw [hlast] at this
        simp only at this
        cases hk : HasPrefix l key with
        | false =>
          simp only [Bool.false_eq_true, if_false]
          rw [this]
          exact hframe r l r1 hk h1
        | true =>
          simp only [if_true]
          have hv := hset r l r1 hk h1
          rw [← this] at hv
          exact hv

/-! ## `Parse` as a whole -/

theorem parseFinish_fields (h : Helpers) (c : Config) (r : record) :
    (parseFinish h c r).1.Code = (if r.Code = 0 then 302 else r.Code) ∧
    (parseFinish h c r).1.Typ = resolvedType r ∧
    (parseFinish h c r).1.To = r.To ∧
    (parseFinish h c r).1.Version = r.Version ∧
    (parseFinish h c r).2 =
      (if h.contains c.Enable (resolvedType r) then none
       else some (.typeNotEnabled (resolvedType r))) := by
  unfold parseFinish resolvedType StatusFound
  split_ifs <;> simp_all

/-- An accepted text went through the whole loop, and `Parse` ended in the final checks. -/
theorem Parse_ok (h : Helpers) (r : record) (str : Str) (req : Request) (c : Config)
    (hok : (Parse h r str req c).2 = none) :
    ∃ r', parseLoop h req r (Split str ';') = .next r' ∧
      Parse h r str req c = parseFinish h c r' := by
  unfold Parse parseDirectives at hok ⊢
  cases hl : parseLoop h req r (Split str ';') with
  | fail r1 e =>
    rw [hl] at hok
    cases hok
  | next r1 => exact ⟨r1, rfl, rfl⟩

theorem Parse_of_loop_fail (h : Helpers) (r : record) (str : Str) (req : Request) (c : Config)
    (hf : ∃ r' e, parseLoop h req r (Split str ';') = .fail r' e) :
    (Parse h r str req c).2 ≠ none := by
  obtain ⟨r', e, hl⟩ := hf
  unfold Parse parseDirectives
  rw [hl]
  simp

theorem directivesAccepted_iff (h : Helpers) (req : Request) (r : record) (s : List Str) :
    directivesAccepted h req r s = true ↔ ∃ r', parseLoop h req r s = .next r' := by
  unfold directivesAccepted
  cases hl : parseLoop h req r s with
  | next r1 => simp
  | fail r1 e => simp

/-- An error of `Parse` is the error of one directive, or the type check at the end. -/
theorem Parse_error (h : Helpers) (r : record) (str : Str) (req : Request) (c : Config)
    (e : Error) (he : (Parse h r str req c).2 = some e) :
    (∃ d ∈ Split str ';', ∃ r0 r1, parseDirective h req r0 d = .fail r1 e) ∨
    (∃ r', parseLoop h req r (Split str ';') = .next r' ∧
      e = .typeNotEnabled (resolvedType r')) := by
  unfold Parse parseDirectives at he
  cases hl : parseLoop h req r (Split str ';') with
  | fail r1 e1 =>
    rw [hl] at he
    simp only [Option.some.injEq] at he
    subst he
    obtain ⟨d, hd, r0, h0⟩ := parseLoop_fail_source h req _ r r1 e1 hl
    exact Or.inl ⟨d, hd, r0, r1, h0⟩
  | next r1 =>
    rw [hl] at he
    simp only at he
    rw [(parseFinish_fields h c r1).2.2.2.2] at he
    split_ifs at he
    cases he
    exact Or.inr ⟨r1, rfl, rfl⟩

/-! ## The fields after one iteration -/

theorem next_Code (h : Helpers) (req : Request) (r r' : record) (l : Str)
    (hn : parseDirective h req r l = .next r') :
    (HasPrefix l "code=".toList = false → r'.Code = r.Code) ∧
    (HasPrefix l "code=".toList = true → Atoi (TrimPrefix l "code=".toList) = .ok r'.Code) := by
  rcases parseDirective_next h req r r' l hn with ⟨hu, e⟩ | ⟨-, hc⟩
  · have h1 := ((recognized_false_iff l).mp hu).1
    subst e
    exact ⟨fun _ => rfl, fun hp => absurd hp (Bool.eq_false_iff.mp h1)⟩
  · rcases hc with ⟨hp, i, hi, e⟩ | ⟨hp, v, hv, e⟩ | ⟨hp, e⟩ | ⟨hp, e⟩ | ⟨hp, v, hv, e⟩ |
      ⟨hp, e⟩ | ⟨hp, hv, e⟩ | ⟨hp, e⟩ | ⟨hp, e⟩
    all_goals
      subst e
      first
        | exact ⟨fun hq => absurd hp (Bool.eq_false_iff.mp hq), fun _ => hi⟩
        | exact ⟨fun _ => rfl, fun hq => absurd hq (Bool.eq_false_iff.mp
            (HasPrefix_excl l _ "code=".toList hp (by decide) (by decide)))⟩

theorem next_Typ (h : Helpers) (req : Request) (r r' : record) (l : Str)
    (hn : parseDirective h req r l = .next r') :
    (HasPrefix l "type=".toList = false → r'.Typ = r.Typ) ∧
    (HasPrefix l "type=".toList = true → r'.Typ = TrimPrefix l "type=".toList) := by
  rcases parseDirective_next h req r r' l hn with ⟨hu, e⟩ | ⟨-, hc⟩
  · have h1 := ((recognized_false_iff l).mp hu).2.2.2.2.2.1
    subst e
    exact ⟨fun _ => rfl, fun hp => absurd hp (Bool.eq_false_iff.mp h1)⟩
  · rcases hc with ⟨hp, i, hi, e⟩ | ⟨hp, v, hv, e⟩ | ⟨hp, e⟩ | ⟨hp, e⟩ | ⟨hp, v, hv, e⟩ |
      ⟨hp, e⟩ | ⟨hp, hv, e⟩ | ⟨hp, e⟩ | ⟨hp, e⟩
    all_goals
      subst e
      first
        | exact ⟨fun hq => absurd hp (Bool.eq_false_iff.mp hq), fun _ => rfl⟩
        | exact ⟨fun _ => rfl, fun hq => absurd hq (Bool.eq_false_iff.mp
            (HasPrefix_excl l _ "type=".toList hp (by decide) (by decide)))⟩

theorem next_Version (h : Helpers) (req : Request) (r r' : record) (l : Str)
    (hn : parseDirective h req r l = .next r') :
    (HasPrefix l "v=".toList = false → r'.Version = r.Version) ∧
    (HasPrefix l "v=".toList = true → r'.Version = "txtv0".toList) := by
  rcases parseDirective_next h req r r' l hn with ⟨hu, e⟩ | ⟨-, hc⟩
  · have h1 := ((recognized_false_iff l).mp hu).2.2.2.2.2.2.1
    subst e
    exact ⟨fun _ => rfl, fun hp => absurd hp (Bool.eq_false_iff.mp h1)⟩
  · rcases hc with ⟨hp, i, hi, e⟩ | ⟨hp, v, hv, e⟩ | ⟨hp, e⟩ | ⟨hp, e⟩ | ⟨hp, v, hv, e⟩ |
      ⟨hp, e⟩ | ⟨hp, hv, e⟩ | ⟨hp, e⟩ | ⟨hp, e⟩
    all_goals
      subst e
      first
        | exact ⟨fun hq => absurd hp (Bool.eq_false_iff.mp hq), fun _ => rfl⟩
        | exact ⟨fun _ => rfl, fun hq => absurd hq (Bool.eq_false_iff.mp
            (HasPrefix_excl l _ "v=".toList hp (by decide) (by decide)))⟩

theorem next_To (h : Helpers) (req : Request) (r r' : record) (l : Str)
    (hn : parseDirective h req r l = .next r') :
    (HasPrefix l "to=".toList = false → r'.To = r.To) ∧
    (HasPrefix l "to=".toList = true →
      h.parsePlaceholders (TrimPrefix l "to=".toList) req [] = .ok r'.To) := by
  rcases parseDirective_next h req r r' l hn with ⟨hu, e⟩ | ⟨-, hc⟩
  · have h1 := ((recognized_false_iff l).mp hu).2.2.2.2.1
    subst e
    exact ⟨fun _ => rfl, fun hp => absurd hp (Bool.eq_false_iff.mp h1)⟩
  · rcases hc with ⟨hp, i, hi, e⟩ | ⟨hp, v, hv, e⟩ | ⟨hp, e⟩ | ⟨hp, e⟩ | ⟨hp, v, hv, e⟩ |
      ⟨hp, e⟩ | ⟨hp, hv, e⟩ | ⟨hp, e⟩ | ⟨hp, e⟩
    all_goals
      subst e
      first
        | exact ⟨fun hq => absurd hp (Bool.eq_false_iff.mp hq), fun _ => hv⟩
        | exact ⟨fun _ => rfl, fun hq => absurd hq (Bool.eq_false_iff.mp
            (HasPrefix_excl l _ "to=".toList hp (by decide) (by decide)))⟩

theorem next_docker (h : Helpers) (req : Request) (r r' : record) (l : Str)
    (hr : ¬ (r.Typ = "dockerv2".toList ∧ r.To = []))
    (hn : parseDirective h req r l = .next r') :
    ¬ (r'.Typ = "dockerv2".toList ∧ r'.To = []) := by
  rcases parseDirective_next h req r r' l hn with ⟨-, e⟩ | ⟨hd, -⟩
  · rw [e]
    exact hr
  · exact hd

theorem afterSwitch_long (r : record) (l : Str) (hl : 255 < l.length) :
    afterSwitch r l = .fail r .tooLong := by
  unfold afterSwitch
  rw [if_pos hl]

/-- A recognized directive whose remaining text is longer than 255 fails on every record. -/
theorem parseDirective_long (h : Helpers) (req : Request) (r : record) (d k : Str)
    (hk : k ∈ keys) (hp : HasPrefix d k = true) (hl : 255 < (TrimPrefix d k).length) :
    ∃ r' e, parseDirective h req r d = .fail r' e := by
  simp only [keys, List.mem_cons, List.mem_singleton, List.not_mem_nil, or_false] at hk
  rcases hk with rfl | rfl | rfl | rfl | rfl | rfl | rfl | rfl | rfl
  · rw [parseDirective_code h req r d hp]
    split
    · exact ⟨_, _, rfl⟩
    · exact ⟨_, _, afterSwitch_long _ _ hl⟩
  · rw [parseDirective_from h req r d hp]
    split
    · exact ⟨_, _, rfl⟩
    · exact ⟨_, _, afterSwitch_long _ _ hl⟩
  · rw [parseDirective_re h req r d hp]
    exact ⟨_, _, afterSwitch_long _ _ hl⟩
  · rw [parseDirective_root h req r d hp]
    exact ⟨_, _, afterSwitch_long _ _ hl⟩
  · rw [parseDirective_to h req r d hp]
    split
    · exact ⟨_, _, rfl⟩
    · exact ⟨_, _, afterSwitch_long _ _ hl⟩
  · rw [parseDirective_type h req r d hp]
    exact ⟨_, _, afterSwitch_long _ _ hl⟩
  · rw [parseDirective_v h req r d hp]
    split_ifs
    · exact ⟨_, _, rfl⟩
    · exact ⟨_, _, afterSwitch_long _ _ hl⟩
  · rw [parseDirective_vcs h req r d hp]
    exact ⟨_, _, afterSwitch_long _ _ hl⟩
  · rw [parseDirective_website h req r d hp]
    exact ⟨_, _, afterSwitch_long _ _ hl⟩

/-- Unrecognized directives with exactly one `=` can be dropped from the loop. -/
theorem parseLoop_filter (h : Helpers) (req : Request) (s : List Str)
    (hs : ∀ d ∈ s, recognized d = false → d.count '=' = 1) :
    ∀ r, parseLoop h req r s = parseLoop h req r (s.filter recognized) := by
  induction s with
  | nil =>
    intro r
    rfl
  | cons l rest ih =>
    intro r
    have ih' := ih (fun d hd => hs d (List.mem_cons_of_mem _ hd))
    rw [List.filter_cons]
    cases hr : recognized l with
    | true =>
      simp only [if_true, parseLoop]
      cases parseDirective h req r l with
      | fail r1 e => rfl
      | next r1 => exact ih' r1
    | false =>
      simp only [Bool.false_eq_true, if_false]
      have hcount := hs l (List.mem_cons_self _ _) hr
      have hstep : parseDirective h req r l = .next r := by
        rw [parseDirective_unknown h req r l hr, Split_length, hcount]
        rfl
      simp only [parseLoop, hstep]
      exact ih' r

/-! ## Claims on `record.Parse` -/

/-- C1. When `Parse` applied to an empty record returns no error: a text without a `code=`
directive, or whose last `code=` directive carries the integer 0, leaves `Code` at exactly
302, and a text whose last `code=` directive is `code=200` leaves `Code` at 200. -/
theorem C1_code_default (h : Helpers) (str : Str) (req : Request) (c : Config)
    (hok : (Parse h {} str req c).2 = none) :
    ((lastDirective "code=".toList (Split str ';') = none ∨
        ∃ l, lastDirective "code=".toList (Split str ';') = some l ∧
          Atoi (TrimPrefix l "code=".toList) = .ok 0) →
      (Parse h {} str req c).1.Code = 302) ∧
    (lastDirective "code=".toList (Split str ';') = some "code=200".toList →
      (Parse h {} str req c).1.Code = 200) := by
  obtain ⟨r', hl, hp⟩ := Parse_ok h {} str req c hok
  have hfield := parseLoop_field h req (fun r => r.Code) "code=".toList
    (fun l x => Atoi (TrimPrefix l "code=".toList) = .ok x)
    (fun r l r' hk hn => (next_Code h req r r' l hn).1 hk)
    (fun r l r' hk hn => (next_Code h req r r' l hn).2 hk) (Split str ';') {} r' hl
  rw [hp, (parseFinish_fields h c r').1]
  constructor
  · rintro (hnone | ⟨l, hsome, hzero⟩)
    · rw [hnone] at hfield
      simp only at hfield
      rw [hfield]
      rfl
    · rw [hsome] at hfield
      simp only at hfield
      rw [hzero] at hfield
      have h0 : r'.Code = 0 := (Except.ok.inj hfield).symm
      rw [if_pos h0]
  · intro hsome
    rw [hsome] at hfield
    simp only at hfield
    have h200 : Atoi (TrimPrefix "code=200".toList "code=".toList) = .ok 200 := rfl
    rw [h200] at hfield
    have h0 : r'.Code = 200 := (Except.ok.inj hfield).symm
    rw [h0]
    rfl

/-- C1 on two records of the test suite: one without `code=`, one ending in `code=200`. -/
theorem C1_code_default_witness :
    (Parse plainHelpers {} "v=txtv0;to=https://nocode.host.test;type=host".toList {}
        (enabling ["host"])).2 = none ∧
    (Parse plainHelpers {} "v=txtv0;to=https://nocode.host.test;type=host".toList {}
        (enabling ["host"])).1.Code = 302 ∧
    (Parse plainHelpers {} "v=txtv0;to=https://plain.host.test;code=200".toList {}
        (enabling ["host"])).1.Code = 200 :=
  ⟨by decide,
   (C1_code_default plainHelpers "v=txtv0;to=https://nocode.host.test;type=host".toList {}
      (enabling ["host"]) (by decide)).1 (Or.inl (by decide)),
   (C1_code_default plainHelpers "v=txtv0;to=https://plain.host.test;code=200".toList {}
      (enabling ["host"]) (by decide)).2 (by decide)⟩

/-- C2. For a text with no `type=` directive, or whose last `type=` directive has an empty
value, `Parse` applied to an empty record with `"host"` enabled leaves `Type` equal to
`"host"` whenever it returns no error; and when `"host"` is not enabled and every directive
is accepted by the loop, `Parse` fails with the type-not-enabled error for `"host"`. Here
`contains` is taken to be membership in the list. -/
theorem C2_type_default (h : Helpers) (str : Str) (req : Request) (c : Config)
    (hcontains : ∀ a w, h.contains a w = true ↔ w ∈ a)
    (hty : lastDirective "type=".toList (Split str ';') = none ∨
      ∃ l, lastDirective "type=".toList (Split str ';') = some l ∧
        TrimPrefix l "type=".toList = []) :
    ("host".toList ∈ c.Enable → (Parse h {} str req c).2 = none →
      (Parse h {} str req c).1.Typ = "host".toList) ∧
    ("host".toList ∉ c.Enable →
      directivesAccepted h req {} (Split str ';') = true →
      (Parse h {} str req c).2 = some (.typeNotEnabled "host".toList)) := by
  have key : ∀ r', parseLoop h req {} (Split str ';') = .next r' → r'.Typ = [] := by
    intro r' hl
    have hfield := parseLoop_field h req (fun r => r.Typ) "type=".toList
      (fun l x => x = TrimPrefix l "type=".toList)
      (fun r l r' hk hn => (next_Typ h req r r' l hn).1 hk)
      (fun r l r' hk hn => (next_Typ h req r r' l hn).2 hk) (Split str ';') {} r' hl
    rcases hty with hnone | ⟨l, hsome, hempty⟩
    · rw [hnone] at hfield
      exact hfield
    · rw [hsome] at hfield
      simp only at hfield
      rw [hfield, hempty]
  constructor
  · intro _ hok
    obtain ⟨r', hl, hp⟩ := Parse_ok h {} str req c hok
    rw [hp, (parseFinish_fields h c r').2.1]
    unfold resolvedType
    rw [if_pos (key r' hl)]
  · intro hne hacc
    obtain ⟨r', hl⟩ := (directivesAccepted_iff h req {} _).mp hacc
    have hres : resolvedType r' = "host".toList := by
      unfold resolvedType
      rw [if_pos (key r' hl)]
    have hc : h.contains c.Enable "host".toList = false := by
      cases hb : h.contains c.Enable "host".toList with
      | false => rfl
      | true => exact absurd ((hcontains _ _).mp hb) hne
    unfold Parse parseDirectives
    rw [hl]
    simp only
    rw [(parseFinish_fields h c r').2.2.2.2, hres, hc]
    rfl

/-- C2 on the record of the test suite that has no `type=`, with `"host"` enabled and with
only `"path"` enabled. -/
theorem C2_type_default_witness :
    (Parse plainHelpers {} "v=txtv0;to=https://about.txtdirect.org".toList {}
        (enabling ["host"])).1.Typ = "host".toList ∧
    (Parse plainHelpers {} "v=txtv0;to=https://about.txtdirect.org".toList {}
        (enabling ["path"])).2 = some (.typeNotEnabled "host".toList) :=
  ⟨(C2_type_default plainHelpers "v=txtv0;to=https://about.txtdirect.org".toList {}
      (enabling ["host"]) (by intro a w; simp [plainHelpers]) (Or.inl (by decide))).1
      (by decide) (by decide),
   (C2_type_default plainHelpers "v=txtv0;to=https://about.txtdirect.org".toList {}
      (enabling ["path"]) (by intro a w; simp [plainHelpers]) (Or.inl (by decide))).2
      (by decide) (by decide)⟩

/-- C3. If `Parse` applied to an empty record returns no error and the resulting `Type` is
`"dockerv2"`, then the resulting `To` is not empty; and every text that holds a directive
`type=dockerv2` and no `to=` directive is rejected with an error. -/
theorem C3_dockerv2_requires_to (h : Helpers) (str : Str) (req : Request) (c : Config) :
    ((Parse h {} str req c).2 = none → (Parse h {} str req c).1.Typ = "dockerv2".toList →
      (Parse h {} str req c).1.To ≠ []) ∧
    ("type=dockerv2".toList ∈ Split str ';' →
      (∀ l ∈ Split str ';', HasPrefix l "to=".toList = false) →
      (Parse h {} str req c).2 ≠ none) := by
  constructor
  · intro hok hty hto
    obtain ⟨r', hl, hp⟩ := Parse_ok h {} str req c hok
    have hinv := parseLoop_inv h req
      (fun r => ¬ (r.Typ = "dockerv2".toList ∧ r.To = [])) (Split str ';')
      (fun l _ r r' hr hn => next_docker h req r r' l hr hn) {} r' (by decide) hl
    rw [hp, (parseFinish_fields h c r').2.1] at hty
    rw [hp, (parseFinish_fields h c r').2.2.1] at hto
    apply hinv
    refine ⟨?_, hto⟩
    unfold resolvedType at hty
    split_ifs at hty with he
    · exact absurd hty (by decide)
    · exact hty
  · intro hmem hnoto
    apply Parse_of_loop_fail
    apply parseLoop_fail_of_mem h req (fun r => r.To = []) (Split str ';')
      "type=dockerv2".toList hmem
    · intro l hl r r' hr hn
      rw [(next_To h req r r' l hn).1 (hnoto l hl)]
      exact hr
    · intro r hr
      rw [parseDirective_type h req r _ (by decide)]
      have ht : TrimPrefix "type=dockerv2".toList "type=".toList = "dockerv2".toList := by
        decide
      rw [ht]
      unfold afterSwitch
      rw [if_neg (by decide), if_pos ⟨rfl, hr⟩]
      exact ⟨_, _, rfl⟩
    · rfl

/-- C3 on the dockerv2 record of the test suite, and on a dockerv2 text without `to=`. -/
theorem C3_dockerv2_requires_to_witness :
    (Parse plainHelpers {} "v=txtv0;to=https://gcr.io/;type=dockerv2".toList {}
        (enabling ["dockerv2"])).1.To ≠ [] ∧
    (Parse plainHelpers {} "v=txtv0;type=dockerv2".toList {}
        (enabling ["dockerv2"])).2 ≠ none :=
  ⟨(C3_dockerv2_requires_to plainHelpers "v=txtv0;to=https://gcr.io/;type=dockerv2".toList {}
      (enabling ["dockerv2"])).1 (by decide) (by decide),
   (C3_dockerv2_requires_to plainHelpers "v=txtv0;type=dockerv2".toList {}
      (enabling ["dockerv2"])).2 (by decide) (by decide)⟩

/-- C4. With `contains(list, word)` true exactly when `word` occurs in `list`: if `Parse`
returns no error, the record's `Type`, which is the resolved type (the `"host"` default
applied), is an element of the configuration's `Enable` list; conversely, if every
directive of the text is accepted and the resolved type is not in `Enable`, `Parse` returns
the type-not-enabled error for it. -/
theorem C4_type_enabled (h : Helpers) (r : record) (str : Str) (req : Request) (c : Config)
    (hcontains : ∀ a w, h.contains a w = true ↔ w ∈ a) :
    ((Parse h r str req c).2 = none →
      (Parse h r str req c).1.Typ ∈ c.Enable ∧
      ∃ r', parseLoop h req r (Split str ';') = .next r' ∧
        (Parse h r str req c).1.Typ = resolvedType r') ∧
    (∀ r', parseLoop h req r (Split str ';') = .next r' → resolvedType r' ∉ c.Enable →
      (Parse h r str req c).2 = some (.typeNotEnabled (resolvedType r'))) := by
  constructor
  · intro hok
    obtain ⟨r', hl, hp⟩ := Parse_ok h r str req c hok
    have hf := parseFinish_fields h c r'
    rw [hp, hf.2.2.2.2] at hok
    rw [hp, hf.2.1]
    refine ⟨?_, r', hl, rfl⟩
    split_ifs at hok with hb
    exact (hcontains _ _).mp hb
  · intro r' hl hne
    have hc : h.contains c.Enable (resolvedType r') = false := by
      cases hb : h.contains c.Enable (resolvedType r') with
      | false => rfl
      | true => exact absurd ((hcontains _ _).mp hb) hne
    unfold Parse parseDirectives
    rw [hl]
    simp only
    rw [(parseFinish_fields h c r').2.2.2.2, hc]
    rfl

/-- C4 on a gometa record of the test suite, with gometa enabled and with only host
enabled. -/
theorem C4_type_enabled_witness :
    ("gometa".toList ∈ (enabling ["host", "gometa"]).Enable) ∧
    (Parse plainHelpers {} "v=txtv0;to=https://pkg.txtdirect.org;type=gometa".toList {}
        (enabling ["host"])).2 = some (.typeNotEnabled "gometa".toList) :=
  ⟨((C4_type_enabled plainHelpers {} "v=txtv0;to=https://pkg.txtdirect.org;type=gometa".toList
      {} (enabling ["host", "gometa"]) (by intro a w; simp [plainHelpers])).1 (by decide)).1,
   (C4_type_enabled plainHelpers {} "v=txtv0;to=https://pkg.txtdirect.org;type=gometa".toList
      {} (enabling ["host"]) (by intro a w; simp [plainHelpers])).2
      { Version := "txtv0".toList, To := "https://pkg.txtdirect.org".toList,
        Typ := "gometa".toList } (by decide) (by decide)⟩

/-- C5. A text holding a directive that begins with `v=` and whose value is not the literal
`txtv0` makes `Parse` return an error; a text without a `v=` directive is never rejected
with the unhandled-version error; and every text `Parse` accepts from an empty record
leaves `Version` empty or equal to `txtv0`. -/
theorem C5_version (h : Helpers) (r : record) (str : Str) (req : Request) (c : Config) :
    (∀ d ∈ Split str ';', HasPrefix d "v=".toList = true →
      TrimPrefix d "v=".toList ≠ "txtv0".toList → (Parse h r str req c).2 ≠ none) ∧
    ((∀ d ∈ Split str ';', HasPrefix d "v=".toList = false) →
      ∀ v, (Parse h r str req c).2 ≠ some (.unhandledVersion v)) ∧
    ((Parse h {} str req c).2 = none →
      (Parse h {} str req c).1.Version = [] ∨
      (Parse h {} str req c).1.Version = "txtv0".toList) := by
  refine ⟨?_, ?_, ?_⟩
  · intro d hd hp hv
    apply Parse_of_loop_fail
    apply parseLoop_fail_of_mem h req (fun _ => True) (Split str ';') d hd
    · intros
      trivial
    · intro r0 _
      rw [parseDirective_v h req r0 d hp, if_pos hv]
      exact ⟨_, _, rfl⟩
    · trivial
  · intro hnov v he
    rcases Parse_error h r str req c _ he with ⟨d, hd, r0, r1, hf⟩ | ⟨r', -, habs⟩
    · rcases parseDirective_fail h req r0 r1 d _ hf with
        ⟨-, e, -⟩ | ⟨-, ne, -, e⟩ | ⟨-, m, -, e⟩ | ⟨-, m, -, e⟩ | ⟨hp, -, -⟩ | ⟨e, -⟩ | ⟨e, -⟩
      · cases e
      · cases e
      · cases e
      · cases e
      · rw [hnov d hd] at hp
        cases hp
      · cases e
      · cases e
    · cases habs
  · intro hok
    obtain ⟨r', hl, hp⟩ := Parse_ok h {} str req c hok
    have hfield := parseLoop_field h req (fun r => r.Version) "v=".toList
      (fun _ x => x = "txtv0".toList)
      (fun r l r' hk hn => (next_Version h req r r' l hn).1 hk)
      (fun r l r' hk hn => (next_Version h req r r' l hn).2 hk) (Split str ';') {} r' hl
    rw [hp, (parseFinish_fields h c r').2.2.2.1]
    cases hlast : lastDirective "v=".toList (Split str ';') with
    | none =>
      rw [hlast] at hfield
      exact Or.inl hfield
    | some d =>
      rw [hlast] at hfield
      exact Or.inr hfield

/-- C5 on a text with version `txtv1`, on the test record without `v=`, and on an accepted
text. -/
theorem C5_version_witness :
    (Parse plainHelpers {} "v=txtv1;to=https://x".toList {} (enabling ["host"])).2 ≠ none ∧
    (Parse plainHelpers {} "to=https://noversion.host.test;type=host".toList {}
        (enabling ["host"])).2 ≠ some (.unhandledVersion "txtv1".toList) ∧
    ((Parse plainHelpers {} "v=txtv0;to=https://x".toList {} (enabling ["host"])).1.Version = []
      ∨ (Parse plainHelpers {} "v=txtv0;to=https://x".toList {}
          (enabling ["host"])).1.Version = "txtv0".toList) :=
  ⟨(C5_version plainHelpers {} "v=txtv1;to=https://x".toList {} (enabling ["host"])).1
      "v=txtv1".toList (by decide) (by decide) (by decide),
   (C5_version plainHelpers {} "to=https://noversion.host.test;type=host".toList {}
      (enabling ["host"])).2.1 (by decide) _,
   (C5_version plainHelpers {} "v=txtv0;to=https://x".toList {} (enabling ["host"])).2.2
      (by decide)⟩

/-- C6. A text holding a directive that begins with none of the nine recognized prefixes
and that has no `=` or more than one `=` makes `Parse` return an error; a text whose
unrecognized directives all have exactly one `=` is parsed exactly as the text with these
directives left out, so that it is accepted when it is valid otherwise. -/
theorem C6_unknown_directives (h : Helpers) (r : record) (str : Str) (req : Request)
    (c : Config) :
    (∀ d ∈ Split str ';', recognized d = false → d.count '=' ≠ 1 →
      (Parse h r str req c).2 ≠ none) ∧
    ((∀ d ∈ Split str ';', recognized d = false → d.count '=' = 1) →
      Parse h r str req c =
        parseDirectives h r ((Split str ';').filter recognized) req c) := by
  constructor
  · intro d hd hu hcount
    apply Parse_of_loop_fail
    apply parseLoop_fail_of_mem h req (fun _ => True) (Split str ';') d hd
    · intros
      trivial
    · intro r0 _
      rw [parseDirective_unknown h req r0 d hu, Split_length]
      rw [if_pos (by omega)]
      exact ⟨_, _, rfl⟩
    · trivial
  · intro hs
    unfold Parse parseDirectives
    rw [parseLoop_filter h req (Split str ';') hs r]

/-- C6 on the examples of the spec: `foo=bar=baz` and a bare `foo` are rejected, `foo=bar`
is tolerated. -/
theorem C6_unknown_directives_witness :
    (Parse plainHelpers {} "v=txtv0;to=https://x;foo=bar=baz".toList {}
        (enabling ["host"])).2 ≠ none ∧
    (Parse plainHelpers {} "v=txtv0;foo;to=https://x".toList {}
        (enabling ["host"])).2 ≠ none ∧
    Parse plainHelpers {} "v=txtv0;foo=bar;to=https://x".toList {} (enabling ["host"]) =
      ({ Version := "txtv0".toList, To := "https://x".toList, Code := 302,
         Typ := "host".toList }, none) :=
  ⟨(C6_unknown_directives plainHelpers {} "v=txtv0;to=https://x;foo=bar=baz".toList {}
      (enabling ["host"])).1 "foo=bar=baz".toList (by decide) (by decide) (by decide),
   (C6_unknown_directives plainHelpers {} "v=txtv0;foo;to=https://x".toList {}
      (enabling ["host"])).1 "foo".toList (by decide) (by decide) (by decide),
   ((C6_unknown_directives plainHelpers {} "v=txtv0;foo=bar;to=https://x".toList {}
      (enabling ["host"])).2 (by decide)).trans (by decide)⟩

/-- C7. A text holding a recognized directive whose remaining text after `key=` is longer
than 255 characters makes `Parse` return an error; and when the remaining text of every
recognized directive, taken before placeholder substitution, has 255 characters or fewer,
`Parse` never returns the length error. -/
theorem C7_length_cap (h : Helpers) (r : record) (str : Str) (req : Request) (c : Config) :
    (∀ d ∈ Split str ';', ∀ k ∈ keys, HasPrefix d k = true →
      255 < (TrimPrefix d k).length → (Parse h r str req c).2 ≠ none) ∧
    ((∀ d ∈ Split str ';', ∀ k ∈ keys, HasPrefix d k = true →
        (TrimPrefix d k).length ≤ 255) →
      (Parse h r str req c).2 ≠ some .tooLong) := by
  constructor
  · intro d hd k hk hp hl
    apply Parse_of_loop_fail
    apply parseLoop_fail_of_mem h req (fun _ => True) (Split str ';') d hd
    · intros
      trivial
    · intro r0 _
      exact parseDirective_long h req r0 d k hk hp hl
    · trivial
  · intro hshort he
    rcases Parse_error h r str req c _ he with ⟨d, hd, r0, r1, hf⟩ | ⟨r', -, habs⟩
    · rcases parseDirective_fail h req r0 r1 d _ hf with
        ⟨-, e, -⟩ | ⟨-, ne, -, e⟩ | ⟨-, m, -, e⟩ | ⟨-, m, -, e⟩ | ⟨-, -, e⟩ |
        ⟨-, k, hk, hp, hl⟩ | ⟨e, -⟩
      · cases e
      · cases e
      · cases e
      · cases e
      · cases e
      · have := hshort d hd k hk hp
        omega
      · cases e
    · cases habs

/-- C7 on a `to=` directive with 256 characters after the prefix, and on one with 255. -/
theorem C7_length_cap_witness :
    (Parse plainHelpers {} ("to=".toList ++ List.replicate 256 'a') {}
        (enabling ["host"])).2 ≠ none ∧
    (Parse plainHelpers {} ("to=".toList ++ List.replicate 255 'a') {}
        (enabling ["host"])).2 ≠ some .tooLong :=
  ⟨(C7_length_cap plainHelpers {} ("to=".toList ++ List.replicate 256 'a') {}
      (enabling ["host"])).1 ("to=".toList ++ List.replicate 256 'a') (by decide)
      "to=".toList (by decide) (by decide) (by decide),
   (C7_length_cap plainHelpers {} ("to=".toList ++ List.replicate 255 'a') {}
      (enabling ["host"])).2 (by decide)⟩

/-- C8, as stated, fails: `code=99999` and `code=-5` are accepted from an empty record and
leave a `Code` outside `100 .. 599`. -/
theorem C8_counterexample :
    ((Parse plainHelpers {} "code=99999".toList {} (enabling ["host"])).2 = none ∧
      (Parse plainHelpers {} "code=99999".toList {} (enabling ["host"])).1.Code = 99999 ∧
      ¬ validStatus (Parse plainHelpers {} "code=99999".toList {} (enabling ["host"])).1.Code) ∧
    ((Parse plainHelpers {} "code=-5".toList {} (enabling ["host"])).2 = none ∧
      (Parse plainHelpers {} "code=-5".toList {} (enabling ["host"])).1.Code = -5 ∧
      ¬ validStatus (Parse plainHelpers {} "code=-5".toList {} (enabling ["host"])).1.Code) := by
  decide

/-- C9, the code at the failing input: with dockerv2 enabled, `to=https://gcr.io/` before
`type=dockerv2` is accepted, and the same two directives in the other order are rejected at
the `type=` directive with the error that `to=` is required. -/
theorem C9_dockerv2_order_dependent :
    Parse plainHelpers {} "to=https://gcr.io/;type=dockerv2".toList {}
        (enabling ["dockerv2"]) =
      ({ To := "https://gcr.io/".toList, Code := 302, Typ := "dockerv2".toList }, none) ∧
    Parse plainHelpers {} "type=dockerv2;to=https://gcr.io/".toList {}
        (enabling ["dockerv2"]) =
      ({ Typ := "dockerv2".toList }, some .dockerTo) := by
  decide

/-! ## Claims on `getRecord` -/

theorem getRecordRetry_hosts (h : Helpers) (host : Str) (c : Config) (r : Request) :
    (getRecordRetry h host c r).1 = [host, wildcardHost host] ∧
    (getRecordRetry h host c r).2 =
      (match h.query 1 (wildcardHost host) c with
       | (_, some e) => .returned {} (some (.external e))
       | (txts, none) => getRecordFinish h txts r c) := by
  unfold getRecordRetry
  simp only
  split <;> exact ⟨rfl, rfl⟩

theorem wildcardHost_eq (host : Str) : wildcardHost host = replaceLeftmostLabel host := by
  unfold wildcardHost replaceLeftmostLabel
  cases hs : Split host '.' with
  | nil => exact absurd hs (Split_ne_nil host '.')
  | cons p ps => exact Join_tail_Split host '.' _ p ps hs

/-- C10. `getRecord` first queries the given host. If that lookup returns an error, or its
first answer is the empty string, `getRecord` issues exactly one more lookup, for the host
with its leftmost dot-separated label replaced by `_`, and ends on the result of that
second lookup. If the first lookup succeeds with a non-empty first answer there is no
second lookup. In all cases at most two lookups are issued. -/
theorem C10_wildcard_retry (h : Helpers) (host : Str) (c : Config) (r : Request) :
    (getRecord h host c r).1.head? = some host ∧
    ((h.query 0 host c).2 ≠ none ∨ (h.query 0 host c).1.head? = some [] →
      (getRecord h host c r).1 = [host, replaceLeftmostLabel host] ∧
      (getRecord h host c r).2 =
        (match h.query 1 (replaceLeftmostLabel host) c with
         | (_, some e) => .returned {} (some (.external e))
         | (txts, none) => getRecordFinish h txts r c)) ∧
    ((h.query 0 host c).2 = none →
      (∃ a, (h.query 0 host c).1.head? = some a ∧ a ≠ []) →
      (getRecord h host c r).1 = [host] ∧
      (getRecord h host c r).2 = getRecordFinish h (h.query 0 host c).1 r c) ∧
    (getRecord h host c r).1.length ≤ 2 := by
  have hretry := getRecordRetry_hosts h host c r
  rw [wildcardHost_eq] at hretry
  unfold getRecord
  rcases hq : h.query 0 host c with ⟨txts, err⟩
  cases err with
  | some e =>
    simp only
    refine ⟨by rw [hretry.1]; rfl, fun _ => hretry, fun habs => (by cases habs),
      by rw [hretry.1]; exact Nat.le_refl 2⟩
  | none =>
    cases txts with
    | nil =>
      simp only
      refine ⟨rfl, ?_, ?_, Nat.le_succ 1⟩
      · rintro (habs | habs)
        · exact absurd rfl habs
        · cases habs
      · rintro - ⟨a, ha, -⟩
        cases ha
    | cons first more =>
      simp only
      by_cases hf : first = []
      · rw [if_pos hf]
        refine ⟨by rw [hretry.1]; rfl, fun _ => hretry, ?_, by rw [hretry.1]; exact Nat.le_refl 2⟩
        rintro - ⟨a, ha, hne⟩
        simp only [List.head?_cons, Option.some.injEq] at ha
        exact absurd (ha ▸ hf) hne
      · rw [if_neg hf]
        refine ⟨rfl, ?_, fun _ _ => ⟨rfl, rfl⟩, Nat.le_succ 1⟩
        rintro (habs | habs)
        · exact absurd rfl habs
        · simp only [List.head?_cons, Option.some.injEq] at habs
          exact absurd habs hf

/-- C10 on hosts of the test suite: a host whose exact record is empty is retried as
`_.test`, a failed first lookup of `a.b.c` is retried as `_.b.c`, and a host with an exact
record is looked up once. -/
theorem C10_wildcard_retry_witness :
    (getRecord (tableHelpers [("_.test", "v=txtv0;to=https://x")]) "missing.test".toList
        (enabling ["host"]) {}).1 = ["missing.test".toList, "_.test".toList] ∧
    (getRecord (failFirstHelpers "v=txtv0;to=https://x") "a.b.c".toList
        (enabling ["host"]) {}).1 = ["a.b.c".toList, "_.b.c".toList] ∧
    (getRecord (tableHelpers [("about.test", "v=txtv0;to=https://about.txtdirect.org")])
        "about.test".toList (enabling ["host"]) {}).1 = ["about.test".toList] :=
  ⟨((C10_wildcard_retry (tableHelpers [("_.test", "v=txtv0;to=https://x")])
      "missing.test".toList (enabling ["host"]) {}).2.1 (Or.inr (by decide))).1.trans
      (by decide),
   ((C10_wildcard_retry (failFirstHelpers "v=txtv0;to=https://x") "a.b.c".toList
      (enabling ["host"]) {}).2.1 (Or.inl (by decide))).1.trans (by decide),
   ((C10_wildcard_retry
      (tableHelpers [("about.test", "v=txtv0;to=https://about.txtdirect.org")])
      "about.test".toList (enabling ["host"]) {}).2.2.1 (by decide)
      ⟨"v=txtv0;to=https://about.txtdirect.org".toList, by decide, by decide⟩).1⟩

/-! ## More on the fields and on the loop -/

theorem next_From (h : Helpers) (req : Request) (r r' : record) (l : Str)
    (hn : parseDirective h req r l = .next r') :
    (HasPrefix l "from=".toList = false → r'.From = r.From) ∧
    (HasPrefix l "from=".toList = true →
      h.parsePlaceholders (TrimPrefix l "from=".toList) req [] = .ok r'.From) := by
  rcases parseDirective_next h req r r' l hn with ⟨hu, e⟩ | ⟨-, hc⟩
  · have h1 := ((recognized_false_iff l).mp hu).2.1
    subst e
    exact ⟨fun _ => rfl, fun hp => absurd hp (Bool.eq_false_iff.mp h1)⟩
  · rcases hc with ⟨hp, i, hi, e⟩ | ⟨hp, v, hv, e⟩ | ⟨hp, e⟩ | ⟨hp, e⟩ | ⟨hp, v, hv, e⟩ |
      ⟨hp, e⟩ | ⟨hp, hv, e⟩ | ⟨hp, e⟩ | ⟨hp, e⟩
    all_goals
      subst e
      first
        | exact ⟨fun hq => absurd hp (Bool.eq_false_iff.mp hq), fun _ => hv⟩
        | exact ⟨fun _ => rfl, fun hq => absurd hq (Bool.eq_false_iff.mp
            (HasPrefix_excl l _ "from=".toList hp (by decide) (by decide)))⟩

theorem next_Re (h : Helpers) (req : Request) (r r' : record) (l : Str)
    (hn : parseDirective h req r l = .next r') :
    (HasPrefix l "re=".toList = false → r'.Re = r.Re) ∧
    (HasPrefix l "re=".toList = true →
      r'.Re = TrimPrefix l "re=".toList) := by
  rcases parseDirective_next h req r r' l hn with ⟨hu, e⟩ | ⟨-, hc⟩
  · have h1 := ((recognized_false_iff l).mp hu).2.2.1
    subst e
    exact ⟨fun _ => rfl, fun hp => absurd hp (Bool.eq_false_iff.mp h1)⟩
  · rcases hc with ⟨hp, i, hi, e⟩ | ⟨hp, v, hv, e⟩ | ⟨hp, e⟩ | ⟨hp, e⟩ | ⟨hp, v, hv, e⟩ |
      ⟨hp, e⟩ | ⟨hp, hv, e⟩ | ⟨hp, e⟩ | ⟨hp, e⟩
    all_goals
      subst e
      first
        | exact ⟨fun hq => absurd hp (Bool.eq_false_iff.mp hq), fun _ => rfl⟩
        | exact ⟨fun _ => rfl, fun hq => absurd hq (Bool.eq_false_iff.mp
            (HasPrefix_excl l _ "re=".toList hp (by decide) (by decide)))⟩

theorem next_Root (h : Helpers) (req : Request) (r r' : record) (l : Str)
    (hn : parseDirective h req r l = .next r') :
    (HasPrefix l "root=".toList = false → r'.Root = r.Root) ∧
    (HasPrefix l "root=".toList = true →
      r'.Root = TrimPrefix l "root=".toList) := by
  rcases parseDirective_next h req r r' l hn with ⟨hu, e⟩ | ⟨-, hc⟩
  · have h1 := ((recognized_false_iff l).mp hu).2.2.2.1
    subst e
    exact ⟨fun _ => rfl, fun hp => absurd hp (Bool.eq_false_iff.mp h1)⟩
  · rcases hc with ⟨hp, i, hi, e⟩ | ⟨hp, v, hv, e⟩ | ⟨hp, e⟩ | ⟨hp, e⟩ | ⟨hp, v, hv, e⟩ |
      ⟨hp, e⟩ | ⟨hp, hv, e⟩ | ⟨hp, e⟩ | ⟨hp, e⟩
    all_goals
      subst e
      first
        | exact ⟨fun hq => absurd hp (Bool.eq_false_iff.mp hq), fun _ => rfl⟩
        | exact ⟨fun _ => rfl, fun hq => absurd hq (Bool.eq_false_iff.mp
            (HasPrefix_excl l _ "root=".toList hp (by decide) (by decide)))⟩

theorem next_Vcs (h : Helpers) (req : Request) (r r' : record) (l : Str)
    (hn : parseDirective h req r l = .next r') :
    (HasPrefix l "vcs=".toList = false → r'.Vcs = r.Vcs) ∧
    (HasPrefix l "vcs=".toList = true →
      r'.Vcs = TrimPrefix l "vcs=".toList) := by
  rcases parseDirective_next h req r r' l hn with ⟨hu, e⟩ | ⟨-, hc⟩
  · have h1 := ((recognized_false_iff l).mp hu).2.2.2.2.2.2.2.1
    subst e
    exact ⟨fun _ => rfl, fun hp => absurd hp (Bool.eq_false_iff.mp h1)⟩
  · rcases hc with ⟨hp, i, hi, e⟩ | ⟨hp, v, hv, e⟩ | ⟨hp, e⟩ | ⟨hp, e⟩ | ⟨hp, v, hv, e⟩ |
      ⟨hp, e⟩ | ⟨hp, hv, e⟩ | ⟨hp, e⟩ | ⟨hp, e⟩
    all_goals
      subst e
      first
        | exact ⟨fun hq => absurd hp (Bool.eq_false_iff.mp hq), fun _ => rfl⟩
        | exact ⟨fun _ => rfl, fun hq => absurd hq (Bool.eq_false_iff.mp
            (HasPrefix_excl l _ "vcs=".toList hp (by decide) (by decide)))⟩

theorem next_Website (h : Helpers) (req : Request) (r r' : record) (l : Str)
    (hn : parseDirective h req r l = .next r') :
    (HasPrefix l "website=".toList = false → r'.Website = r.Website) ∧
    (HasPrefix l "website=".toList = true →
      r'.Website = TrimPrefix l "website=".toList) := by
  rcases parseDirective_next h req r r' l hn with ⟨hu, e⟩ | ⟨-, hc⟩
  · have h1 := ((recognized_false_iff l).mp hu).2.2.2.2.2.2.2.2
    subst e
    exact ⟨fun _ => rfl, fun hp => absurd hp (Bool.eq_false_iff.mp h1)⟩
  · rcases hc with ⟨hp, i, hi, e⟩ | ⟨hp, v, hv, e⟩ | ⟨hp, e⟩ | ⟨hp, e⟩ | ⟨hp, v, hv, e⟩ |
      ⟨hp, e⟩ | ⟨hp, hv, e⟩ | ⟨hp, e⟩ | ⟨hp, e⟩
    all_goals
      subst e
      first
        | exact ⟨fun hq => absurd hp (Bool.eq_false_iff.mp hq), fun _ => rfl⟩
        | exact ⟨fun _ => rfl, fun hq => absurd hq (Bool.eq_false_iff.mp
            (HasPrefix_excl l _ "website=".toList hp (by decide) (by decide)))⟩

theorem parseFinish_other (h : Helpers) (c : Config) (r : record) :
    (parseFinish h c r).1.From = r.From ∧ (parseFinish h c r).1.Root = r.Root ∧
    (parseFinish h c r).1.Re = r.Re ∧ (parseFinish h c r).1.Vcs = r.Vcs ∧
    (parseFinish h c r).1.Website = r.Website := by
  unfold parseFinish
  by_cases hc : r.Code = 0 <;> by_cases ht : r.Typ = [] <;> simp only [hc, ht, if_true, if_false]
    <;> split <;> exact ⟨rfl, rfl, rfl, rfl, rfl⟩

theorem parseLoop_append (h : Helpers) (req : Request) (s t : List Str) :
    ∀ r, parseLoop h req r (s ++ t) =
      match parseLoop h req r s with
      | .fail r' e => .fail r' e
      | .next r' => parseLoop h req r' t := by
  induction s with
  | nil =>
    intro r
    rfl
  | cons l rest ih =>
    intro r
    simp only [List.cons_append, parseLoop]
    cases parseDirective h req r l with
    | fail r1 e => rfl
    | next r1 => exact ih r1

/-- When the directives before `d` are accepted and `d` fails, `Parse` returns the error of
`d` and the record as `d` left it. -/
theorem Parse_fail_at (h : Helpers) (r r1 r2 : record) (str : Str) (req : Request)
    (c : Config) (pre post : List Str) (d : Str) (e : Error)
    (hs : Split str ';' = pre ++ d :: post) (hpre : parseLoop h req r pre = .next r1)
    (hd : parseDirective h req r1 d = .fail r2 e) :
    Parse h r str req c = (r2, some e) := by
  unfold Parse parseDirectives
  rw [hs, parseLoop_append, hpre]
  simp only [parseLoop, hd]

/-- In an accepted loop every directive was accepted on the record it met. -/
theorem parseLoop_next_all (h : Helpers) (req : Request) (s : List Str) :
    ∀ r r', parseLoop h req r s = .next r' →
      ∀ d ∈ s, ∃ r0 r1, parseDirective h req r0 d = .next r1 := by
  induction s with
  | nil =>
    intro r r' _ d hd
    exact absurd hd (List.not_mem_nil d)
  | cons l rest ih =>
    intro r r' hl d hd
    simp only [parseLoop] at hl
    split at hl
    · cases hl
    · rename_i r1 h1
      rcases List.mem_cons.mp hd with hdl | hdr
      · subst hdl
        exact ⟨r, r1, h1⟩
      · exact ih r1 r' hl d hdr

/-- A field written verbatim by the directives with prefix `key` holds, after an accepted
loop from the empty record, the raw value of the last such directive, or nothing. -/
theorem raw_field (h : Helpers) (req : Request) (f : record → Str) (key : Str)
    (hstep : ∀ r l r', parseDirective h req r l = .next r' →
      (HasPrefix l key = false → f r' = f r) ∧
      (HasPrefix l key = true → f r' = TrimPrefix l key))
    (h0 : f {} = []) (s : List Str) (r' : record)
    (hl : parseLoop h req {} s = .next r') :
    f r' = (rawValue key s).getD [] := by
  have hfield := parseLoop_field h req f key (fun l x => x = TrimPrefix l key)
    (fun r l r' hk hn => (hstep r l r' hn).1 hk)
    (fun r l r' hk hn => (hstep r l r' hn).2 hk) s {} r' hl
  unfold rawValue
  cases hlast : lastDirective key s with
  | none =>
    rw [hlast] at hfield
    simp only at hfield
    rw [hfield, h0]
    rfl
  | some d =>
    rw [hlast] at hfield
    exact hfield

/-- A field written through `parsePlaceholders` by the directives with prefix `key` holds,
after an accepted loop from the empty record, the substituted raw value of the last such
directive, or nothing. -/
theorem substituted_field (h : Helpers) (req : Request) (f : record → Str) (key : Str)
    (hstep : ∀ r l r', parseDirective h req r l = .next r' →
      (HasPrefix l key = false → f r' = f r) ∧
      (HasPrefix l key = true → h.parsePlaceholders (TrimPrefix l key) req [] = .ok (f r')))
    (h0 : f {} = []) (s : List Str) (r' : record)
    (hl : parseLoop h req {} s = .next r') :
    match rawValue key s with
    | none => f r' = []
    | some v => h.parsePlaceholders v req [] = .ok (f r') := by
  have hfield := parseLoop_field h req f key
    (fun l x => h.parsePlaceholders (TrimPrefix l key) req [] = .ok x)
    (fun r l r' hk hn => (hstep r l r' hn).1 hk)
    (fun r l r' hk hn => (hstep r l r' hn).2 hk) s {} r' hl
  unfold rawValue
  cases hlast : lastDirective key s with
  | none =>
    rw [hlast] at hfield
    simp only at hfield
    simp only [Option.map_none']
    rw [hfield, h0]
  | some d =>
    rw [hlast] at hfield
    exact hfield

theorem getRecordFinish_ok (h : Helpers) (txts : List Str) (r : Request) (c : Config)
    (rec : record) (hok : getRecordFinish h txts r c = .returned rec none) :
    ∃ txt, txts = [txt] ∧ Parse h {} txt r c = (rec, none) := by
  unfold getRecordFinish at hok
  split at hok
  · rename_i txt
    split at hok
    · cases hok
    · rename_i rec1 hp
      cases hok
      exact ⟨txt, rfl, hp⟩
  · cases hok

/-- C11, as stated, fails: the first lookup answers with two strings, the first of them
empty; `getRecord` retries with the wildcard name and returns a record without error. -/
theorem C11_counterexample :
    (scriptedHelpers [["", "v=txtv0;to=https://a"], ["v=txtv0;to=https://b"]]).query 0
        "multi.test".toList (enabling ["host"]) =
      (["".toList, "v=txtv0;to=https://a".toList], none) ∧
    getRecord (scriptedHelpers [["", "v=txtv0;to=https://a"], ["v=txtv0;to=https://b"]])
        "multi.test".toList (enabling ["host"]) {} =
      (["multi.test".toList, "_.test".toList],
       .returned { Version := "txtv0".toList, To := "https://b".toList, Code := 302,
                   Typ := "host".toList } none) := by
  decide

/-- C11, amended. Whenever the first lookup returns, without error, more than one TXT string
and the first string is not empty, `getRecord` returns the record-count error and issues no
second lookup; and `getRecord` never returns a record without error unless the last lookup
it issued, whose answer it parsed, returned exactly one TXT string and no error. -/
theorem C11_ambiguous_record (h : Helpers) (host : Str) (c : Config) (r : Request) :
    (∀ first more, h.query 0 host c = (first :: more, none) → first ≠ [] → more ≠ [] →
      (getRecord h host c r).1 = [host] ∧
      (getRecord h host c r).2 = .returned {} (some (.recordCount (more.length + 1)))) ∧
    (∀ rec, (getRecord h host c r).2 = .returned rec none →
      ∃ txt, Parse h {} txt r c = (rec, none) ∧
        (((getRecord h host c r).1 = [host] ∧ h.query 0 host c = ([txt], none)) ∨
         ((getRecord h host c r).1 = [host, wildcardHost host] ∧
           h.query 1 (wildcardHost host) c = ([txt], none)))) := by
  have retry : ∀ rec, (getRecordRetry h host c r).2 = .returned rec none →
      ∃ txt, Parse h {} txt r c = (rec, none) ∧
        (getRecordRetry h host c r).1 = [host, wildcardHost host] ∧
        h.query 1 (wildcardHost host) c = ([txt], none) := by
    intro rec hrec
    obtain ⟨h1, h2⟩ := getRecordRetry_hosts h host c r
    rw [h2] at hrec
    rcases hq : h.query 1 (wildcardHost host) c with ⟨txts, err⟩
    rw [hq] at hrec
    cases err with
    | some e => cases hrec
    | none =>
      simp only at hrec
      obtain ⟨txt, ht, hp⟩ := getRecordFinish_ok h txts r c rec hrec
      subst ht
      exact ⟨txt, hp, h1, rfl⟩
  unfold getRecord
  rcases hq : h.query 0 host c with ⟨txts, err⟩
  cases err with
  | some e =>
    simp only
    constructor
    · intro first more habs
      cases habs
    · intro rec hrec
      obtain ⟨txt, hp, hw⟩ := retry rec hrec
      exact ⟨txt, hp, Or.inr hw⟩
  | none =>
    cases txts with
    | nil =>
      simp only
      constructor
      · intro first more habs
        cases habs
      · intro rec hrec
        cases hrec
    | cons first more =>
      simp only
      by_cases hf : first = []
      · rw [if_pos hf]
        constructor
        · intro first' more' heq hne
          simp only [Prod.mk.injEq, List.cons.injEq, and_true] at heq
          exact absurd (heq.1 ▸ hf) hne
        · intro rec hrec
          obtain ⟨txt, hp, hw⟩ := retry rec hrec
          exact ⟨txt, hp, Or.inr hw⟩
      · rw [if_neg hf]
        constructor
        · intro first' more' heq _ hmore
          simp only [Prod.mk.injEq, List.cons.injEq, and_true] at heq
          obtain ⟨e1, e2⟩ := heq
          subst e1 e2
          refine ⟨rfl, ?_⟩
          cases more with
          | nil => exact absurd rfl hmore
          | cons m ms => rfl
        · intro rec hrec
          simp only at hrec
          obtain ⟨txt, ht, hp⟩ := getRecordFinish_ok h _ r c rec hrec
          rw [ht]
          exact ⟨txt, hp, Or.inl ⟨rfl, rfl⟩⟩

/-- C11 amended, on a first answer of two non-empty strings and on a host of the test
suite with an exact record. -/
theorem C11_ambiguous_record_witness :
    (getRecord (scriptedHelpers [["v=txtv0;to=https://a", "v=txtv0;to=https://b"]])
        "multi.test".toList (enabling ["host"]) {}) =
      (["multi.test".toList], .returned {} (some (.recordCount 2))) ∧
    (∃ txt, Parse (tableHelpers [("about.test", "v=txtv0;to=https://about.txtdirect.org")])
        {} txt {} (enabling ["host"]) =
      ({ Version := "txtv0".toList, To := "https://about.txtdirect.org".toList, Code := 302,
         Typ := "host".toList }, none)) :=
  ⟨Prod.ext
    ((C11_ambiguous_record
      (scriptedHelpers [["v=txtv0;to=https://a", "v=txtv0;to=https://b"]])
      "multi.test".toList (enabling ["host"]) {}).1 "v=txtv0;to=https://a".toList
      ["v=txtv0;to=https://b".toList] (by decide) (by decide) (by decide)).1
    ((C11_ambiguous_record
      (scriptedHelpers [["v=txtv0;to=https://a", "v=txtv0;to=https://b"]])
      "multi.test".toList (enabling ["host"]) {}).1 "v=txtv0;to=https://a".toList
      ["v=txtv0;to=https://b".toList] (by decide) (by decide) (by decide)).2,
   (((C11_ambiguous_record
      (tableHelpers [("about.test", "v=txtv0;to=https://about.txtdirect.org")])
      "about.test".toList (enabling ["host"]) {}).2 _ (by decide)).imp
      (fun _ hx => hx.1))⟩

/-! ## Splitting a joined text -/

theorem Split_cons_sep (rest : Str) (sep : Char) :
    Split (sep :: rest) sep = [] :: Split rest sep := by
  rw [Split, if_pos rfl]

theorem Split_cons_other (ch : Char) (rest : Str) (sep : Char) (p : Str) (ps : List Str)
    (hc : ch ≠ sep) (hs : Split rest sep = p :: ps) :
    Split (ch :: rest) sep = (ch :: p) :: ps := by
  rw [Split, if_neg hc, hs]

theorem Split_append_sep (a b : Str) (sep : Char) :
    Split (a ++ sep :: b) sep = Split a sep ++ Split b sep := by
  induction a with
  | nil =>
    rw [List.nil_append, Split_cons_sep]
    rfl
  | cons ch rest ih =>
    rw [List.cons_append]
    by_cases hc : ch = sep
    · subst hc
      rw [Split_cons_sep, Split_cons_sep, ih]
      rfl
    · cases hs : Split rest sep with
      | nil => exact absurd hs (Split_ne_nil rest sep)
      | cons p ps =>
        rw [hs] at ih
        rw [Split_cons_other ch _ sep p (ps ++ Split b sep) hc ih,
          Split_cons_other ch rest sep p ps hc hs]
        rfl

theorem Split_of_not_mem (s : Str) (sep : Char) (hs : sep ∉ s) : Split s sep = [s] := by
  induction s with
  | nil => rfl
  | cons ch rest ih =>
    unfold Split
    have hne : ch ≠ sep := fun he => hs (he ▸ List.mem_cons_self _ _)
    rw [if_neg hne, ih (fun hm => hs (List.mem_cons_of_mem _ hm))]

/-- Splitting the join of a non-empty list gives the pieces of its elements, in order. -/
theorem Split_Join (parts : List Str) (sep : Char) (hne : parts ≠ []) :
    Split (Join parts sep) sep = parts.flatMap (fun p => Split p sep) := by
  induction parts with
  | nil => exact absurd rfl hne
  | cons p ps ih =>
    cases ps with
    | nil => simp [Join]
    | cons q qs =>
      simp only [Join]
      rw [Split_append_sep, ih (List.cons_ne_nil q qs)]
      simp

theorem TrimPrefix_length (d k : Str) (hp : HasPrefix d k = true) :
    d.length = k.length + (TrimPrefix d k).length := by
  unfold TrimPrefix
  rw [if_pos hp]
  unfold HasPrefix at hp
  have hle := (List.isPrefixOf_iff_prefix.mp hp).length_le
  rw [List.length_drop]
  omega

theorem keys_length (k : Str) (hk : k ∈ keys) : k.length ≤ 8 := by
  simp only [keys, List.mem_cons, List.mem_singleton, List.not_mem_nil, or_false] at hk
  rcases hk with rfl | rfl | rfl | rfl | rfl | rfl | rfl | rfl | rfl <;> decide

/-! ## Further claims on `record.Parse` -/

/-- C12, as stated, fails for `Type`: the text `to=https://x;type=` is accepted, the raw
value of its last `type=` directive is empty, and `Type` is `host`. -/
theorem C12_counterexample :
    (Parse plainHelpers {} "to=https://x;type=".toList {} (enabling ["host"])).2 = none ∧
    rawValue "type=".toList (Split "to=https://x;type=".toList ';') = some [] ∧
    (Parse plainHelpers {} "to=https://x;type=".toList {} (enabling ["host"])).1.Typ =
      "host".toList := by
  decide

/-- C12, amended. For every text `Parse` accepts from an empty record: `To` and `From` are
`parsePlaceholders` applied to the raw value of the last `to=` and `from=` directive; `Root`,
`Re`, `Vcs` and `Website` hold the raw value of their last directive verbatim (empty when
there is none); `Type` holds the raw value of its last directive verbatim, unless that is
empty or missing, when it is `host`. And when `Parse` reaches a `to=` or `from=` directive,
the directives before it being accepted, and `parsePlaceholders` returns an error for its
value, `Parse` returns that error and the record as it was before the directive. -/
theorem C12_field_values (h : Helpers) (r0 : record) (str : Str) (req : Request)
    (c : Config) :
    ((Parse h {} str req c).2 = none →
      (match rawValue "to=".toList (Split str ';') with
        | none => (Parse h {} str req c).1.To = []
        | some v => h.parsePlaceholders v req [] = .ok (Parse h {} str req c).1.To) ∧
      (match rawValue "from=".toList (Split str ';') with
        | none => (Parse h {} str req c).1.From = []
        | some v => h.parsePlaceholders v req [] = .ok (Parse h {} str req c).1.From) ∧
      (Parse h {} str req c).1.Root = (rawValue "root=".toList (Split str ';')).getD [] ∧
      (Parse h {} str req c).1.Re = (rawValue "re=".toList (Split str ';')).getD [] ∧
      (Parse h {} str req c).1.Vcs = (rawValue "vcs=".toList (Split str ';')).getD [] ∧
      (Parse h {} str req c).1.Website =
        (rawValue "website=".toList (Split str ';')).getD [] ∧
      (Parse h {} str req c).1.Typ =
        (if (rawValue "type=".toList (Split str ';')).getD [] = [] then "host".toList
         else (rawValue "type=".toList (Split str ';')).getD [])) ∧
    (∀ pre d post r1 m, Split str ';' = pre ++ d :: post →
      parseLoop h req r0 pre = .next r1 →
      ((HasPrefix d "to=".toList = true ∧
          h.parsePlaceholders (TrimPrefix d "to=".toList) req [] = .error m) ∨
       (HasPrefix d "from=".toList = true ∧
          h.parsePlaceholders (TrimPrefix d "from=".toList) req [] = .error m)) →
      Parse h r0 str req c = (r1, some (.external m))) := by
  constructor
  · intro hok
    obtain ⟨r', hl, hp⟩ := Parse_ok h {} str req c hok
    have hf := parseFinish_fields h c r'
    have ho := parseFinish_other h c r'
    rw [hp, hf.2.2.1, hf.2.1, ho.1, ho.2.1, ho.2.2.1, ho.2.2.2.1, ho.2.2.2.2]
    refine ⟨?_, ?_, ?_, ?_, ?_, ?_, ?_⟩
    · exact substituted_field h req (fun r => r.To) _
        (fun r l r' hn => next_To h req r r' l hn) rfl _ r' hl
    · exact substituted_field h req (fun r => r.From) _
        (fun r l r' hn => next_From h req r r' l hn) rfl _ r' hl
    · exact raw_field h req (fun r => r.Root) _
        (fun r l r' hn => next_Root h req r r' l hn) rfl _ r' hl
    · exact raw_field h req (fun r => r.Re) _
        (fun r l r' hn => next_Re h req r r' l hn) rfl _ r' hl
    · exact raw_field h req (fun r => r.Vcs) _
        (fun r l r' hn => next_Vcs h req r r' l hn) rfl _ r' hl
    · exact raw_field h req (fun r => r.Website) _
        (fun r l r' hn => next_Website h req r r' l hn) rfl _ r' hl
    · have ht := raw_field h req (fun r => r.Typ) _
        (fun r l r' hn => next_Typ h req r r' l hn) rfl _ r' hl
      simp only at ht
      unfold resolvedType
      rw [ht]
  · intro pre d post r1 m hs hpre hd
    apply Parse_fail_at h r0 r1 r1 str req c pre post d _ hs hpre
    rcases hd with ⟨hp, hm⟩ | ⟨hp, hm⟩
    · rw [parseDirective_to h req r1 d hp, hm]
    · rw [parseDirective_from h req r1 d hp, hm]

/-- C12 amended, on the gometa record of the test suite with `website=`, and on a text
whose `to=` value is rejected by the placeholder engine. -/
theorem C12_field_values_witness :
    (Parse plainHelpers {}
        "v=txtv0;to=https://github.com/txtdirect/txtdirect;type=gometa;website=https://godoc.org/go.txtdirect.org/txtdirect".toList
        {} (enabling ["gometa"])).1.Website =
      "https://godoc.org/go.txtdirect.org/txtdirect".toList ∧
    Parse rejectingHelpers {} "v=txtv0;to=https://\x7blabel9\x7d;type=host".toList {}
        (enabling ["host"]) =
      ({ Version := "txtv0".toList }, some (.external "placeholder out of range".toList)) :=
  ⟨(((C12_field_values plainHelpers {}
      "v=txtv0;to=https://github.com/txtdirect/txtdirect;type=gometa;website=https://godoc.org/go.txtdirect.org/txtdirect".toList
      {} (enabling ["gometa"])).1 (by decide)).2.2.2.2.2.1).trans (by decide),
   (C12_field_values rejectingHelpers {}
      "v=txtv0;to=https://\x7blabel9\x7d;type=host".toList {} (enabling ["host"])).2
      ["v=txtv0".toList] "to=https://\x7blabel9\x7d".toList ["type=host".toList]
      { Version := "txtv0".toList } "placeholder out of range".toList
      (by decide) (by decide) (Or.inl ⟨by decide, rfl⟩)⟩

/-- C13, as stated, fails: the recognized directive `to=https://x/?a=b` contains two `=`
and the text that holds it is accepted. -/
theorem C13_counterexample :
    "to=https://x/?a=b".toList ∈ Split "v=txtv0;to=https://x/?a=b".toList ';' ∧
    ("to=https://x/?a=b".toList).count '=' = 2 ∧
    Parse plainHelpers {} "v=txtv0;to=https://x/?a=b".toList {} (enabling ["host"]) =
      ({ Version := "txtv0".toList, To := "https://x/?a=b".toList, Code := 302,
         Typ := "host".toList }, none) := by
  decide

/-- C13, amended. Any unrecognized directive, one that begins with none of the nine
prefixes, with zero or more than one `=` fails the whole parse: `Parse` returns an error,
and it is the arbitrary-data error when the directives before it are accepted. A recognized
directive is never split on `=`: the arbitrary-data error always comes from an unrecognized
directive whose number of `=` is not one. -/
theorem C13_arbitrary_data (h : Helpers) (r : record) (str : Str) (req : Request)
    (c : Config) :
    (∀ d ∈ Split str ';', recognized d = false → d.count '=' ≠ 1 →
      (Parse h r str req c).2 ≠ none) ∧
    (∀ pre d post r1, Split str ';' = pre ++ d :: post →
      parseLoop h req r pre = .next r1 → recognized d = false → d.count '=' ≠ 1 →
      Parse h r str req c = (r1, some .arbitraryData)) ∧
    ((Parse h r str req c).2 = some .arbitraryData →
      ∃ d ∈ Split str ';', recognized d = false ∧ d.count '=' ≠ 1) := by
  have hfail : ∀ (r0 : record) (d : Str), recognized d = false → d.count '=' ≠ 1 →
      parseDirective h req r0 d = .fail r0 .arbitraryData := by
    intro r0 d hu hcount
    rw [parseDirective_unknown h req r0 d hu, Split_length, if_pos (by omega)]
  refine ⟨?_, ?_, ?_⟩
  · intro d hd hu hcount
    apply Parse_of_loop_fail
    apply parseLoop_fail_of_mem h req (fun _ => True) (Split str ';') d hd
    · intros
      trivial
    · intro r0 _
      exact ⟨_, _, hfail r0 d hu hcount⟩
    · trivial
  · intro pre d post r1 hs hpre hu hcount
    exact Parse_fail_at h r r1 r1 str req c pre post d _ hs hpre (hfail r1 d hu hcount)
  · intro he
    rcases Parse_error h r str req c _ he with ⟨d, hd, r0, r1, hf⟩ | ⟨r', -, habs⟩
    · rcases parseDirective_fail h req r0 r1 d _ hf with
        ⟨hu, -, hcount⟩ | ⟨-, ne, -, e⟩ | ⟨-, m, -, e⟩ | ⟨-, m, -, e⟩ | ⟨-, -, e⟩ |
        ⟨e, -⟩ | ⟨e, -⟩
      · exact ⟨d, hd, hu, hcount⟩
      · cases e
      · cases e
      · cases e
      · cases e
      · cases e
      · cases e
    · cases habs

/-- C13 amended, on the examples of the spec for malformed unknown directives. -/
theorem C13_arbitrary_data_witness :
    Parse plainHelpers {} "v=txtv0;foo=bar=baz;to=https://x".toList {} (enabling ["host"]) =
      ({ Version := "txtv0".toList }, some .arbitraryData) ∧
    (Parse plainHelpers {} "v=txtv0;to=https://x;foo".toList {} (enabling ["host"])).2 ≠
      none :=
  ⟨(C13_arbitrary_data plainHelpers {} "v=txtv0;foo=bar=baz;to=https://x".toList {}
      (enabling ["host"])).2.1 ["v=txtv0".toList] "foo=bar=baz".toList
      ["to=https://x".toList] { Version := "txtv0".toList }
      (by decide) (by decide) (by decide) (by decide),
   (C13_arbitrary_data plainHelpers {} "v=txtv0;to=https://x;foo".toList {}
      (enabling ["host"])).1 "foo".toList (by decide) (by decide) (by decide)⟩

/-- C14, as stated, fails: with dockerv2 enabled the text
`to=;to=https://gcr.io/;type=dockerv2` is accepted from an empty record, and `Parse` run
again with the same text on the resulting record stops at the first directive with the
error that `to=` is required, leaving `To` empty. -/
theorem C14_counterexample :
    Parse plainHelpers {} "to=;to=https://gcr.io/;type=dockerv2".toList {}
        (enabling ["dockerv2"]) =
      ({ To := "https://gcr.io/".toList, Code := 302, Typ := "dockerv2".toList }, none) ∧
    Parse plainHelpers
        (Parse plainHelpers {} "to=;to=https://gcr.io/;type=dockerv2".toList {}
          (enabling ["dockerv2"])).1
        "to=;to=https://gcr.io/;type=dockerv2".toList {} (enabling ["dockerv2"]) =
      ({ To := [], Code := 302, Typ := "dockerv2".toList }, some .dockerTo) := by
  decide

/-- C15. A text holding a directive that begins with `code=` and whose value is not an
integer in the syntax of `strconv.Atoi` (optional sign, one or more decimal digits, within
the range of `int`), the empty value included, makes `Parse` return an error; and when the
value of the last `code=` directive of an accepted text is such an integer `n` and `n` is
not zero, the record's `Code` is `n`. -/
theorem C15_code_integer (h : Helpers) (r : record) (str : Str) (req : Request)
    (c : Config) :
    (∀ d ∈ Split str ';', HasPrefix d "code=".toList = true →
      integerText (TrimPrefix d "code=".toList) = none → (Parse h r str req c).2 ≠ none) ∧
    integerText (TrimPrefix "code=".toList "code=".toList) = none ∧
    (∀ d n, (Parse h {} str req c).2 = none →
      lastDirective "code=".toList (Split str ';') = some d →
      integerText (TrimPrefix d "code=".toList) = some n → n ≠ 0 →
      (Parse h {} str req c).1.Code = n) := by
  refine ⟨?_, by decide, ?_⟩
  · intro d hd hp hnot
    obtain ⟨e, he⟩ := Atoi_error_of_integerText_none _ hnot
    apply Parse_of_loop_fail
    apply parseLoop_fail_of_mem h req (fun _ => True) (Split str ';') d hd
    · intros
      trivial
    · intro r0 _
      rw [parseDirective_code h req r0 d hp, he]
      exact ⟨_, _, rfl⟩
    · trivial
  · intro d n hok hlast hint hne
    obtain ⟨r', hl, hp⟩ := Parse_ok h {} str req c hok
    have hfield := parseLoop_field h req (fun r => r.Code) "code=".toList
      (fun l x => Atoi (TrimPrefix l "code=".toList) = .ok x)
      (fun r l r' hk hn => (next_Code h req r r' l hn).1 hk)
      (fun r l r' hk hn => (next_Code h req r r' l hn).2 hk) (Split str ';') {} r' hl
    rw [hlast] at hfield
    simp only at hfield
    rw [(Atoi_eq _ n).mpr hint] at hfield
    have hcode : r'.Code = n := (Except.ok.inj hfield).symm
    rw [hp, (parseFinish_fields h c r').1, hcode, if_neg hne]

/-- C15 on texts with `code=`, `code=abc`, `code=3.5` and an integer beyond the range, and
on the accepted text `code=+301`. -/
theorem C15_code_integer_witness :
    (Parse plainHelpers {} "to=https://x;code=".toList {} (enabling ["host"])).2 ≠ none ∧
    (Parse plainHelpers {} "code=abc;to=https://x".toList {} (enabling ["host"])).2 ≠ none ∧
    (Parse plainHelpers {} "code=3.5".toList {} (enabling ["host"])).2 ≠ none ∧
    (Parse plainHelpers {} "code=9223372036854775808".toList {}
        (enabling ["host"])).2 ≠ none ∧
    (Parse plainHelpers {} "to=https://x;code=+301".toList {} (enabling ["host"])).1.Code =
      301 :=
  ⟨(C15_code_integer plainHelpers {} "to=https://x;code=".toList {} (enabling ["host"])).1
      "code=".toList (by decide) (by decide) (by decide),
   (C15_code_integer plainHelpers {} "code=abc;to=https://x".toList {} (enabling ["host"])).1
      "code=abc".toList (by decide) (by decide) (by decide),
   (C15_code_integer plainHelpers {} "code=3.5".toList {} (enabling ["host"])).1
      "code=3.5".toList (by decide) (by decide) (by decide),
   (C15_code_integer plainHelpers {} "code=9223372036854775808".toList {}
      (enabling ["host"])).1 "code=9223372036854775808".toList (by decide) (by decide)
      (by decide),
   (C15_code_integer plainHelpers {} "to=https://x;code=+301".toList {}
      (enabling ["host"])).2.2 "code=+301".toList 301 (by decide) (by decide) (by decide)
      (by decide)⟩

/-- `Parse` consults its helpers only through `parsePlaceholders` on the request and
`contains` on the enabled list: helpers that agree there give the same result; the lookup
function is not consulted. -/
theorem Parse_helpers_agree (h1 h2 : Helpers) (str : Str) (req : Request) (c : Config)
    (hpp : ∀ l, h1.parsePlaceholders l req [] = h2.parsePlaceholders l req [])
    (hcontains : ∀ w, h1.contains c.Enable w = h2.contains c.Enable w) :
    Parse h1 {} str req c = Parse h2 {} str req c := by
  have hstep : ∀ r l, parseDirective h1 req r l = parseDirective h2 req r l := by
    intro r l
    unfold parseDirective
    simp only [hpp]
  have hloop : ∀ s r, parseLoop h1 req r s = parseLoop h2 req r s := by
    intro s
    induction s with
    | nil =>
      intro r
      rfl
    | cons l rest ih =>
      intro r
      simp only [parseLoop, hstep]
      cases parseDirective h2 req r l with
      | fail r1 e => rfl
      | next r1 => exact ih r1
  have hfin : ∀ r, parseFinish h1 c r = parseFinish h2 c r := by
    intro r
    unfold parseFinish
    simp only [hcontains]
  unfold Parse parseDirectives
  rw [hloop]
  cases parseLoop h2 req {} (Split str ';') with
  | fail r1 e => rfl
  | next r1 => exact hfin r1

/-! ## Claims on `setup.go` and `prometheus.go` -/

/-- C17. `TXTDirect.ServeHTTP` calls the next handler, once, and returns its result exactly
when `Redirect` returns an error whose message is `option disabled`; for every other error
of `Redirect` it returns status 500 with that error and does not call the next handler; and
when `Redirect` returns no error it returns `(0, nil)` without calling the next handler. -/
theorem C17_serve_http {W : Type} (Redirect : W → Request → Config → W × Option Str)
    (statusHeader : W → Str) (rd : TXTDirect W) (w : W) (r : Request) :
    (∀ w1, Redirect w r rd.Config = (w1, some "option disabled".toList) →
      (rd.ServeHTTP Redirect statusHeader w r).nextCalls = 1 ∧
      (rd.ServeHTTP Redirect statusHeader w r).status = (rd.Next w1 r).2.1 ∧
      (rd.ServeHTTP Redirect statusHeader w r).err = (rd.Next w1 r).2.2 ∧
      (rd.ServeHTTP Redirect statusHeader w r).writer = (rd.Next w1 r).1) ∧
    (∀ w1 e, Redirect w r rd.Config = (w1, some e) → e ≠ "option disabled".toList →
      (rd.ServeHTTP Redirect statusHeader w r).nextCalls = 0 ∧
      (rd.ServeHTTP Redirect statusHeader w r).status = 500 ∧
      (rd.ServeHTTP Redirect statusHeader w r).err = some e) ∧
    (∀ w1, Redirect w r rd.Config = (w1, none) →
      (rd.ServeHTTP Redirect statusHeader w r).nextCalls = 0 ∧
      (rd.ServeHTTP Redirect statusHeader w r).status = 0 ∧
      (rd.ServeHTTP Redirect statusHeader w r).err = none) ∧
    ((rd.ServeHTTP Redirect statusHeader w r).nextCalls ≠ 0 ↔
      (Redirect w r rd.Config).2 = some "option disabled".toList) := by
  unfold TXTDirect.ServeHTTP
  rcases hq : Redirect w r rd.Config with ⟨w1, err⟩
  cases err with
  | none =>
    simp only
    refine ⟨fun _ habs => (by cases habs), fun _ _ habs => (by cases habs), ?_, ?_⟩
    · intro _ _
      split_ifs <;> exact ⟨rfl, rfl, rfl⟩
    · constructor
      · intro hn
        exfalso
        apply hn
        split_ifs <;> rfl
      · intro habs
        cases habs
  | some e =>
    simp only
    by_cases he : e = "option disabled".toList
    · rw [if_pos he]
      refine ⟨?_, ?_, fun _ habs => (by cases habs), ?_⟩
      · intro w2 heq
        simp only [Prod.mk.injEq] at heq
        rw [← heq.1]
        exact ⟨rfl, rfl, rfl, rfl⟩
      · intro w2 e2 heq hne
        simp only [Prod.mk.injEq, Option.some.injEq] at heq
        exact absurd (heq.2 ▸ he) hne
      · constructor
        · intro _
          rw [he]
        · intro _
          exact Nat.one_ne_zero
    · rw [if_neg he]
      refine ⟨?_, ?_, fun _ habs => (by cases habs), ?_⟩
      · intro w2 heq
        simp only [Prod.mk.injEq, Option.some.injEq] at heq
        exact absurd heq.2 he
      · intro w2 e2 heq _
        simp only [Prod.mk.injEq, Option.some.injEq] at heq
        rw [← heq.2]
        exact ⟨rfl, rfl, rfl⟩
      · constructor
        · intro hn
          exact absurd rfl hn
        · intro habs
          simp only [Option.some.injEq] at habs
          exact absurd habs he

/-- C17 with a response writer that counts the handlers that wrote to it, and a next handler
that answers 404: once with `Redirect` reporting `option disabled`, once with another
error. -/
theorem C17_serve_http_witness :
    ((TXTDirect.ServeHTTP (fun (w : Nat) _ _ => (w + 1, some "option disabled".toList))
        (fun _ => []) ⟨fun w _ => (w + 1, 404, none), enabling ["host"]⟩ 0 {}).nextCalls = 1 ∧
      (TXTDirect.ServeHTTP (fun (w : Nat) _ _ => (w + 1, some "option disabled".toList))
        (fun _ => []) ⟨fun w _ => (w + 1, 404, none), enabling ["host"]⟩ 0 {}).status = 404) ∧
    ((TXTDirect.ServeHTTP (fun (w : Nat) _ _ => (w + 1, some "no record".toList))
        (fun _ => []) ⟨fun w _ => (w + 1, 404, none), enabling ["host"]⟩ 0 {}).nextCalls = 0 ∧
      (TXTDirect.ServeHTTP (fun (w : Nat) _ _ => (w + 1, some "no record".toList))
        (fun _ => []) ⟨fun w _ => (w + 1, 404, none), enabling ["host"]⟩ 0 {}).status = 500) :=
  ⟨⟨((C17_serve_http (fun (w : Nat) _ _ => (w + 1, some "option disabled".toList))
        (fun _ => []) ⟨fun w _ => (w + 1, 404, none), enabling ["host"]⟩ 0 {}).1 1 rfl).1,
    ((C17_serve_http (fun (w : Nat) _ _ => (w + 1, some "option disabled".toList))
        (fun _ => []) ⟨fun w _ => (w + 1, 404, none), enabling ["host"]⟩ 0 {}).1 1 rfl).2.1⟩,
   ⟨((C17_serve_http (fun (w : Nat) _ _ => (w + 1, some "no record".toList))
        (fun _ => []) ⟨fun w _ => (w + 1, 404, none), enabling ["host"]⟩ 0 {}).2.1 1
        "no record".toList rfl (by decide)).1,
    ((C17_serve_http (fun (w : Nat) _ _ => (w + 1, some "no record".toList))
        (fun _ => []) ⟨fun w _ => (w + 1, 404, none), enabling ["host"]⟩ 0 {}).2.1 1
        "no record".toList rfl (by decide)).2.1⟩⟩

/-- C18. After `p.SetDefaults()`: `Address` is its previous value if that was not empty and
`localhost:9183` otherwise; `Path` is its previous value if that was not empty and
`/metrics` otherwise; `Enable` is unchanged; and a second call changes nothing. -/
theorem C18_set_defaults (p : Prometheus) :
    p.SetDefaults.Address = (if p.Address = [] then "localhost:9183".toList else p.Address) ∧
    p.SetDefaults.Path = (if p.Path = [] then "/metrics".toList else p.Path) ∧
    p.SetDefaults.Enable = p.Enable ∧
    p.SetDefaults.SetDefaults = p.SetDefaults := by
  have hform : p.SetDefaults =
      { Enable := p.Enable,
        Address := if p.Address = [] then "localhost:9183".toList else p.Address,
        Path := if p.Path = [] then "/metrics".toList else p.Path } := by
    unfold Prometheus.SetDefaults prometheusAddr prometheusPath
    by_cases ha : p.Address = [] <;> by_cases hp : p.Path = [] <;>
      simp only [ha, hp, if_true, if_false]
  have haddr : (if p.Address = [] then "localhost:9183".toList else p.Address) ≠ [] := by
    split_ifs with ha
    · decide
    · exact ha
  have hpath : (if p.Path = [] then "/metrics".toList else p.Path) ≠ [] := by
    split_ifs with hp
    · decide
    · exact hp
  refine ⟨by rw [hform], by rw [hform], by rw [hform], ?_⟩
  rw [hform]
  unfold Prometheus.SetDefaults
  simp only [haddr, hpath, if_false]

/-- C19, as stated, fails: a `to=` directive of 258 characters and an unknown directive of
304 characters are accepted. -/
theorem C19_counterexample :
    ((Parse plainHelpers {} ("to=".toList ++ List.replicate 255 'a') {}
        (enabling ["host"])).2 = none ∧
      ("to=".toList ++ List.replicate 255 'a') ∈
        Split ("to=".toList ++ List.replicate 255 'a') ';' ∧
      ("to=".toList ++ List.replicate 255 'a').length = 258) ∧
    ((Parse plainHelpers {} ("foo=".toList ++ List.replicate 300 'b') {}
        (enabling ["host"])).2 = none ∧
      ("foo=".toList ++ List.replicate 300 'b') ∈
        Split ("foo=".toList ++ List.replicate 300 'b') ';' ∧
      ("foo=".toList ++ List.replicate 300 'b').length = 304) := by
  decide

/-- C19, amended. In every text `Parse` accepts, each directive that begins with one of the
nine recognized prefixes has at most 255 characters after the prefix, hence at most 255
plus the length of the prefix, at most 263, as a whole; unrecognized directives are not
bounded. -/
theorem C19_directive_size (h : Helpers) (r : record) (str : Str) (req : Request)
    (c : Config) (hok : (Parse h r str req c).2 = none) :
    ∀ d ∈ Split str ';', ∀ k ∈ keys, HasPrefix d k = true →
      (TrimPrefix d k).length ≤ 255 ∧ d.length ≤ k.length + 255 ∧ d.length ≤ 263 := by
  intro d hd k hk hp
  obtain ⟨r', hl, -⟩ := Parse_ok h r str req c hok
  obtain ⟨r0, r1, hn⟩ := parseLoop_next_all h req _ r r' hl d hd
  have hshort : (TrimPrefix d k).length ≤ 255 := by
    by_contra hlong
    obtain ⟨r2, e, hf⟩ := parseDirective_long h req r0 d k hk hp (by omega)
    rw [hn] at hf
    cases hf
  have hlen := TrimPrefix_length d k hp
  have hkey := keys_length k hk
  omega

/-- C19 amended, on an accepted text with a `website=` directive of 263 characters. -/
theorem C19_directive_size_witness :
    (Parse plainHelpers {} ("website=".toList ++ List.replicate 255 'a') {}
        (enabling ["host"])).2 = none ∧
    ("website=".toList ++ List.replicate 255 'a').length ≤ 263 :=
  ⟨by decide,
   (C19_directive_size plainHelpers {} ("website=".toList ++ List.replicate 255 'a') {}
      (enabling ["host"]) (by decide) ("website=".toList ++ List.replicate 255 'a')
      (by decide) "website=".toList (by decide) (by decide)).2.2⟩

/-- C20. A well-formed unknown directive has no effect: for a non-empty list of directives
`ds`, a position `i`, and a directive `u` without `;` that begins with none of the nine
recognized prefixes and holds exactly one `=`, `Parse` on the text that joins `ds` with `u`
inserted at position `i` returns the same error and the same record as on the text that
joins `ds` alone. -/
theorem C20_unknown_no_effect (h : Helpers) (r : record) (ds : List Str) (i : Nat)
    (u : Str) (req : Request) (c : Config) (hne : ds ≠ []) (hsemi : ';' ∉ u)
    (hunknown : recognized u = false) (hone : u.count '=' = 1) :
    Parse h r (Join (ds.take i ++ u :: ds.drop i) ';') req c =
      Parse h r (Join ds ';') req c := by
  have hstep : ∀ r0, parseDirective h req r0 u = .next r0 := by
    intro r0
    rw [parseDirective_unknown h req r0 u hunknown, Split_length, hone]
    rfl
  have hins : ds.take i ++ u :: ds.drop i ≠ [] := by simp
  have hsplit : Split (Join ds ';') ';' =
      (ds.take i).flatMap (fun p => Split p ';') ++
        (ds.drop i).flatMap (fun p => Split p ';') := by
    rw [Split_Join ds ';' hne, ← List.flatMap_append, List.take_append_drop]
  unfold Parse parseDirectives
  rw [Split_Join _ ';' hins, hsplit, List.flatMap_append, List.flatMap_cons,
    Split_of_not_mem u ';' hsemi, parseLoop_append, parseLoop_append]
  cases parseLoop h req r ((ds.take i).flatMap (fun p => Split p ';')) with
  | fail r1 e => rfl
  | next r1 =>
    simp only [List.singleton_append, parseLoop, hstep]
    rfl

/-- C20 on a record of the test suite with `foo=bar` inserted in the middle. -/
theorem C20_unknown_no_effect_witness :
    Parse plainHelpers {} "v=txtv0;foo=bar;to=https://about.txtdirect.org".toList {}
        (enabling ["host"]) =
      Parse plainHelpers {} "v=txtv0;to=https://about.txtdirect.org".toList {}
        (enabling ["host"]) :=
  C20_unknown_no_effect plainHelpers {}
    ["v=txtv0".toList, "to=https://about.txtdirect.org".toList] 1 "foo=bar".toList {}
    (enabling ["host"]) (by decide) (by decide) (by decide) (by decide)

/-! ## The last claims on `record.Parse` -/

/-- C21. `Parse` returns the type-not-enabled error only when every directive of the text
was accepted, for the type resolved after the defaults; and when a directive fails, `Parse`
returns the error of that directive, which is never the type-not-enabled error, whatever
the enabled list holds. -/
theorem C21_type_check_last (h : Helpers) (r : record) (str : Str) (req : Request)
    (c : Config) :
    (∀ t, (Parse h r str req c).2 = some (.typeNotEnabled t) →
      directivesAccepted h req r (Split str ';') = true ∧
      ∃ r', parseLoop h req r (Split str ';') = .next r' ∧ t = resolvedType r') ∧
    (∀ r' e, parseLoop h req r (Split str ';') = .fail r' e →
      Parse h r str req c = (r', some e) ∧ ∀ t, e ≠ .typeNotEnabled t) := by
  have hdir : ∀ d r0 r1 t, parseDirective h req r0 d ≠ .fail r1 (.typeNotEnabled t) := by
    intro d r0 r1 t hf
    rcases parseDirective_fail h req r0 r1 d _ hf with
      ⟨-, e, -⟩ | ⟨-, ne, -, e⟩ | ⟨-, m, -, e⟩ | ⟨-, m, -, e⟩ | ⟨-, -, e⟩ | ⟨e, -⟩ | ⟨e, -⟩
    all_goals cases e
  constructor
  · intro t he
    rcases Parse_error h r str req c _ he with ⟨d, -, r0, r1, hf⟩ | ⟨r', hl, ht⟩
    · exact absurd hf (hdir d r0 r1 t)
    · refine ⟨(directivesAccepted_iff h req r _).mpr ⟨r', hl⟩, r', hl, ?_⟩
      cases ht
      rfl
  · intro r' e hl
    refine ⟨?_, ?_⟩
    · unfold Parse parseDirectives
      rw [hl]
    · intro t ht
      subst ht
      obtain ⟨d, -, r0, hf⟩ := parseLoop_fail_source h req _ r r' _ hl
      exact absurd hf (hdir d r0 r' t)

/-- C21 on a text with an unsupported version whose type is not enabled either. -/
theorem C21_type_check_last_witness :
    Parse plainHelpers {} "v=txtv1;type=gometa".toList {} (enabling ["host"]) =
      ({ Version := "txtv1".toList }, some (.unhandledVersion "txtv1".toList)) ∧
    directivesAccepted plainHelpers {} {} (Split "v=txtv0;type=gometa".toList ';') = true :=
  ⟨((C21_type_check_last plainHelpers {} "v=txtv1;type=gometa".toList {}
      (enabling ["host"])).2 { Version := "txtv1".toList }
      (.unhandledVersion "txtv1".toList) (by decide)).1,
   ((C21_type_check_last plainHelpers {} "v=txtv0;type=gometa".toList {}
      (enabling ["host"])).1 "gometa".toList (by decide)).1⟩

theorem Split_leading (s : Str) (sep : Char) : [] ∈ Split (sep :: s) sep := by
  rw [Split_cons_sep]
  exact List.mem_cons_self _ _

theorem Split_trailing (s : Str) (sep : Char) : [] ∈ Split (s ++ [sep]) sep := by
  rw [Split_append_sep]
  exact List.mem_append_right _ (List.mem_cons_self _ _)

theorem Split_doubled (a b : Str) (sep : Char) : [] ∈ Split (a ++ sep :: sep :: b) sep := by
  rw [Split_append_sep, Split_cons_sep]
  exact List.mem_append_right _ (List.mem_cons_self _ _)

theorem count_nil_ne_one : ([] : Str).count '=' ≠ 1 := by decide

/-- C22. A text with an empty directive is rejected: the empty text, and every text with a
leading, trailing or doubled `;`, has an empty directive; `Parse` returns an error for every
text that has one, and that error is `arbitrary data not allowed` unless a directive before
the empty one already failed, in which case it is the error of that directive. -/
theorem C22_empty_directive (h : Helpers) (r : record) (str : Str) (req : Request)
    (c : Config) :
    ([] ∈ Split str ';' → (Parse h r str req c).2 ≠ none) ∧
    (∀ pre post, Split str ';' = pre ++ [] :: post →
      (∃ r1, parseLoop h req r pre = .next r1 ∧
        Parse h r str req c = (r1, some .arbitraryData)) ∨
      (∃ r1 e, parseLoop h req r pre = .fail r1 e ∧ Parse h r str req c = (r1, some e))) ∧
    Parse h r [] req c = (r, some .arbitraryData) ∧
    (∀ s, [] ∈ Split (';' :: s) ';') ∧ (∀ s, [] ∈ Split (s ++ [';']) ';') ∧
    (∀ a b, [] ∈ Split (a ++ ';' :: ';' :: b) ';') := by
  have hempty : ∀ r0, parseDirective h req r0 [] = .fail r0 .arbitraryData := by
    intro r0
    rw [parseDirective_unknown h req r0 [] (by decide)]
    rfl
  refine ⟨?_, ?_, ?_, fun s => Split_leading s ';', fun s => Split_trailing s ';',
    fun a b => Split_doubled a b ';'⟩
  · intro hmem
    apply Parse_of_loop_fail
    apply parseLoop_fail_of_mem h req (fun _ => True) (Split str ';') [] hmem
    · intros
      trivial
    · intro r0 _
      exact ⟨_, _, hempty r0⟩
    · trivial
  · intro pre post hs
    cases hl : parseLoop h req r pre with
    | next r1 =>
      exact Or.inl ⟨r1, rfl, Parse_fail_at h r r1 r1 str req c pre post [] _ hs hl (hempty r1)⟩
    | fail r1 e =>
      refine Or.inr ⟨r1, e, rfl, ?_⟩
      unfold Parse parseDirectives
      rw [hs, parseLoop_append, hl]
  · exact Parse_fail_at h r r r [] req c [] [] [] _ rfl rfl (hempty r)

/-- C22 on the example of the claim, a record with a trailing `;`, and on a text with a
doubled `;`. -/
theorem C22_empty_directive_witness :
    (Parse plainHelpers {} "v=txtv0;to=https://x;".toList {} (enabling ["host"])).2 ≠ none ∧
    (Parse plainHelpers {} "v=txtv0;;to=https://x".toList {} (enabling ["host"])).2 =
      some .arbitraryData := by
  have hpre : parseLoop plainHelpers {} {} ["v=txtv0".toList] =
      .next { Version := "txtv0".toList } := by decide
  refine ⟨(C22_empty_directive plainHelpers {} "v=txtv0;to=https://x;".toList {}
      (enabling ["host"])).1 (by decide), ?_⟩
  rcases (C22_empty_directive plainHelpers {} "v=txtv0;;to=https://x".toList {}
      (enabling ["host"])).2.1 ["v=txtv0".toList] ["to=https://x".toList] (by decide) with
    ⟨r1, -, hp⟩ | ⟨r1, e, hl, -⟩
  · rw [hp]
  · rw [hpre] at hl
    cases hl

/-! ## The first answer in `getRecord` -/

theorem getRecordFinish_returns (h : Helpers) (txts : List Str) (r : Request) (c : Config) :
    getRecordFinish h txts r c ≠ .panicked := by
  unfold getRecordFinish
  split
  · split <;> exact fun hx => Outcome.noConfusion hx
  · exact fun hx => Outcome.noConfusion hx

theorem getRecordRetry_returns (h : Helpers) (host : Str) (c : Config) (r : Request) :
    (getRecordRetry h host c r).2 ≠ .panicked := by
  rw [(getRecordRetry_hosts h host c r).2]
  split
  · exact fun hx => Outcome.noConfusion hx
  · exact getRecordFinish_returns h _ r c

/-- C23, the code at the failing input: when the first lookup returns no error and no
string, the access `txts[0]` of the retry condition panics, and this is the only way
`getRecord` fails to return; a lookup that answers the first call with an empty list shows
it. -/
theorem C23_first_answer_panics :
    (∀ (h : Helpers) (host : Str) (c : Config) (r : Request),
      (getRecord h host c r).2 = .panicked ↔ h.query 0 host c = ([], none)) ∧
    getRecord (scriptedHelpers [[]]) "about.test".toList (enabling ["host"]) {} =
      (["about.test".toList], .panicked) := by
  refine ⟨?_, by decide⟩
  intro h host c r
  unfold getRecord
  rcases hq : h.query 0 host c with ⟨txts, err⟩
  cases err with
  | some e =>
    simp only
    constructor
    · intro hp
      exact absurd hp (getRecordRetry_returns h host c r)
    · intro habs
      cases habs
  | none =>
    cases txts with
    | nil =>
      simp only
    | cons first more =>
      simp only
      constructor
      · intro hp
        exfalso
        split_ifs at hp
        · exact getRecordRetry_returns h host c r hp
        · exact getRecordFinish_returns h _ r c hp
      · intro habs
        cases habs

/-! ## `removeArrayFromArray` -/

/-- The two instances of `==` on strings, the one of lists and the one of decidable
equality, are the same function. -/
theorem instBEq_Str : (List.instBEq : BEq Str) = instBEqOfDecidableEq := by
  have h : ∀ a b : Str, @BEq.beq Str List.instBEq a b = decide (a = b) := by
    intro a b
    rw [Bool.eq_iff_iff]
    simp
  exact congrArg BEq.mk (funext fun a => funext fun b => h a b)

theorem erase_inst (l : List Str) (x : Str) :
    @List.erase Str List.instBEq l x = @List.erase Str instBEqOfDecidableEq l x := by
  rw [instBEq_Str]

theorem diff_inst (l t : List Str) :
    @List.diff Str List.instBEq l t = @List.diff Str instBEqOfDecidableEq l t := by
  rw [instBEq_Str]

/-- Moving the last element to the front and dropping the last place permutes the rest. -/
theorem swap_last_perm (x : Str) (rest : List Str) :
    (((x :: rest).getLast (List.cons_ne_nil x rest)) :: rest).dropLast.Perm rest := by
  cases rest with
  | nil => simp
  | cons b t =>
    have h1 : (x :: b :: t).getLast (List.cons_ne_nil x (b :: t)) =
        (b :: t).getLast (List.cons_ne_nil b t) := by simp
    rw [h1, List.dropLast_cons₂]
    have h2 := List.dropLast_append_getLast (List.cons_ne_nil b t)
    have h3 := List.perm_append_singleton ((b :: t).getLast (List.cons_ne_nil b t))
      (b :: t).dropLast
    rw [h2] at h3
    exact h3.symm

/-- The inner loop at the first element equal to `x`: all three index accesses are in
range, and the element is overwritten by the last one, whose place is cut off. -/
theorem removeFirst_found (pre rest : List Str) (x : Str) :
    removeFirst (pre ++ x :: rest) x pre.length (x :: rest) =
      some (pre ++ (((x :: rest).getLast (List.cons_ne_nil x rest)) :: rest).dropLast) := by
  have hlen : (pre ++ x :: rest).length = pre.length + rest.length + 1 := by
    simp [List.length_append]
    omega
  have hidx : indexAt (pre ++ x :: rest) (((pre ++ x :: rest).length : Int) - 1) =
      some ((x :: rest).getLast (List.cons_ne_nil x rest)) := by
    unfold indexAt
    have h0 : (0 : Int) ≤ ((pre ++ x :: rest).length : Int) - 1 := by
      rw [hlen]
      omega
    rw [if_pos h0]
    have hn : (((pre ++ x :: rest).length : Int) - 1).toNat =
        (pre ++ x :: rest).length - 1 := by
      omega
    rw [hn, ← List.getLast?_eq_getElem?,
      List.getLast?_append_of_ne_nil _ (List.cons_ne_nil x rest),
      List.getLast?_eq_getLast _ (List.cons_ne_nil x rest)]
  have hset : ∀ last, assignAt (pre ++ x :: rest) (pre.length : Int) last =
      some (pre ++ last :: rest) := by
    intro last
    unfold assignAt
    have h0 : (0 : Int) ≤ (pre.length : Int) ∧
        (pre.length : Int) < ((pre ++ x :: rest).length : Int) := by
      rw [hlen]
      omega
    rw [if_pos h0]
    simp
  have hslice : ∀ last, sliceTo (pre ++ last :: rest)
      (((pre ++ last :: rest).length : Int) - 1) =
        some (pre ++ (last :: rest).dropLast) := by
    intro last
    have hlen2 : (pre ++ last :: rest).length = pre.length + rest.length + 1 := by
      simp [List.length_append]
      omega
    unfold sliceTo
    have h0 : (0 : Int) ≤ ((pre ++ last :: rest).length : Int) - 1 ∧
        ((pre ++ last :: rest).length : Int) - 1 ≤ ((pre ++ last :: rest).length : Int) := by
      rw [hlen2]
      omega
    rw [if_pos h0]
    have hn : (((pre ++ last :: rest).length : Int) - 1).toNat =
        pre.length + rest.length := by
      omega
    rw [hn, List.take_append, List.dropLast_eq_take]
    simp
  simp only [removeFirst, if_true, hidx, hset, hslice]

/-- The inner loop returns, and what it returns is `tmp` with the first occurrence of `x`
removed, up to the order. -/
theorem removeFirst_perm (rest : List Str) (x : Str) :
    ∀ pre : List Str, x ∉ pre →
      ∃ res, removeFirst (pre ++ rest) x pre.length rest = some res ∧
        res.Perm ((pre ++ rest).erase x) := by
  induction rest with
  | nil =>
    intro pre hx
    refine ⟨pre ++ [], rfl, ?_⟩
    rw [List.erase_of_not_mem (by simpa using hx)]
  | cons o rest ih =>
    intro pre hx
    by_cases ho : o = x
    · subst ho
      refine ⟨_, removeFirst_found pre rest o, ?_⟩
      rw [List.erase_append_right _ hx, List.erase_cons_head]
      exact (swap_last_perm o rest).append_left pre
    · have hx' : x ∉ pre ++ [o] := by
        simp only [List.mem_append, List.mem_singleton, not_or]
        exact ⟨hx, fun h => ho h.symm⟩
      obtain ⟨res, hres, hperm⟩ := ih (pre ++ [o]) hx'
      refine ⟨res, ?_, ?_⟩
      · simp only [removeFirst, if_neg ho]
        simpa using hres
      · simpa using hperm

theorem perm_diff (t : List Str) :
    ∀ l₁ l₂ : List Str, l₁.Perm l₂ → (l₁.diff t).Perm (l₂.diff t) := by
  induction t with
  | nil =>
    intro l₁ l₂ hp
    exact hp
  | cons x t ih =>
    intro l₁ l₂ hp
    rw [List.diff_cons, List.diff_cons]
    apply ih
    rw [erase_inst, erase_inst]
    exact hp.erase x

theorem removeLoop_perm (toBeRemoved : List Str) :
    ∀ tmp : List Str, ∃ res, removeLoop tmp toBeRemoved = some res ∧
      res.Perm (tmp.diff toBeRemoved) := by
  induction toBeRemoved with
  | nil =>
    intro tmp
    exact ⟨tmp, rfl, List.Perm.refl _⟩
  | cons x rest ih =>
    intro tmp
    obtain ⟨t1, h1, p1⟩ := removeFirst_perm tmp x [] (List.not_mem_nil x)
    simp only [List.nil_append, List.length_nil] at h1 p1
    obtain ⟨res, h2, p2⟩ := ih t1
    refine ⟨res, ?_, ?_⟩
    · simp only [removeLoop, h1, h2]
    · rw [List.diff_cons]
      exact p2.trans (perm_diff rest _ _ p1)

/-- C24. `removeArrayFromArray(array, toBeRemoved)` returns, no index access inside its
loops being out of range, and its result is a permutation of `array` with one occurrence
erased for each entry of `toBeRemoved` in turn, that is, of the multiset difference of
`array` and `toBeRemoved`; when `array` has no duplicates, a string is in the result exactly
when it is in `array` and not in `toBeRemoved`. -/
theorem C24_remove_array (array toBeRemoved : List Str) :
    ∃ res, removeArrayFromArray array toBeRemoved = some res ∧
      res.Perm (toBeRemoved.foldl List.erase array) ∧
      (res : Multiset Str) = (array : Multiset Str) - (toBeRemoved : Multiset Str) ∧
      (array.Nodup → ∀ x, x ∈ res ↔ x ∈ array ∧ x ∉ toBeRemoved) := by
  obtain ⟨res, hres, hperm⟩ := removeLoop_perm toBeRemoved array
  refine ⟨res, hres, ?_, ?_, ?_⟩
  · rw [← List.diff_eq_foldl]
    exact hperm
  · rw [Multiset.coe_sub, ← diff_inst]
    exact Quotient.sound hperm
  · intro hnd x
    rw [hperm.mem_iff, hnd.diff_eq_filter, List.mem_filter, decide_eq_true_iff]

/-- C24 on the options of `setup.go`: removing `path` and `www` from `allOptions` moves
`gometa` into the place of `path`; the order of the survivors is not kept in general, as
the removal of `host` alone shows. -/
theorem C24_remove_array_witness :
    removeArrayFromArray allOptions ["path".toList, "www".toList] =
      some ["host".toList, "gometa".toList] ∧
    removeArrayFromArray allOptions ["host".toList] =
      some ["www".toList, "path".toList, "gometa".toList] ∧
    (∃ res, removeArrayFromArray allOptions ["host".toList, "tor".toList] = some res ∧
      ∀ x, x ∈ res ↔ x ∈ allOptions ∧ x ∉ ["host".toList, "tor".toList]) :=
  ⟨by decide, by decide,
   (C24_remove_array allOptions ["host".toList, "tor".toList]).imp
     (fun _ hx => ⟨hx.1, hx.2.2.2 (by decide)⟩)⟩

/-! ## Acceptance of any integer code, and a second run of `Parse` -/

theorem HasPrefix_append (k v : Str) : HasPrefix (k ++ v) k = true := by
  unfold HasPrefix
  exact List.isPrefixOf_iff_prefix.mpr (List.prefix_append k v)

theorem TrimPrefix_append (k v : Str) : TrimPrefix (k ++ v) k = v := by
  unfold TrimPrefix
  rw [if_pos (HasPrefix_append k v), List.drop_left]

theorem afterSwitch_ok (r : record) (l : Str) (hl : l.length ≤ 255)
    (hd : ¬ (r.Typ = "dockerv2".toList ∧ r.To = [])) : afterSwitch r l = .next r := by
  unfold afterSwitch
  rw [if_neg (by omega), if_neg hd]

/-- The statements after the loop, in one expression. -/
theorem parseFinish_eq (h : Helpers) (c : Config) (r : record) :
    parseFinish h c r =
      ({ r with Code := if r.Code = 0 then 302 else r.Code, Typ := resolvedType r },
       if h.contains c.Enable (resolvedType r) then none
       else some (.typeNotEnabled (resolvedType r))) := by
  unfold parseFinish resolvedType StatusFound
  split_ifs <;> simp_all

/-- An accepted recognized directive has at most 255 characters after its prefix. -/
theorem next_length (h : Helpers) (req : Request) (r r' : record) (l k : Str)
    (hn : parseDirective h req r l = .next r') (hk : k ∈ keys)
    (hp : HasPrefix l k = true) : (TrimPrefix l k).length ≤ 255 := by
  by_contra hlong
  obtain ⟨r2, e, hf⟩ := parseDirective_long h req r l k hk hp (by omega)
  rw [hn] at hf
  cases hf

/-- The dockerv2 rule passes in the second run wherever it passed in the first, when the
record the second run started on is not of type dockerv2. -/
theorem synced_docker (R r1 r2 : record) (hR : R.Typ ≠ "dockerv2".toList)
    (hs : synced R r1 r2) (hd : ¬ (r1.Typ = "dockerv2".toList ∧ r1.To = [])) :
    ¬ (r2.Typ = "dockerv2".toList ∧ r2.To = []) := by
  obtain ⟨-, sTo, -, sTyp, -⟩ := hs
  rintro ⟨ht, hto⟩
  rcases sTyp with e | ⟨-, e⟩
  · rcases sTo with e2 | ⟨e2, -⟩
    · exact hd ⟨e ▸ ht, e2 ▸ hto⟩
    · exact hd ⟨e ▸ ht, e2⟩
  · exact hR (e ▸ ht)

/-- One directive accepted by the first run is accepted by the second, and the two records
stay in step. -/
theorem synced_step (h : Helpers) (req : Request) (R r1 r2 r1' : record) (l : Str)
    (hR : R.Typ ≠ "dockerv2".toList) (hs : synced R r1 r2)
    (hn : parseDirective h req r1 l = .next r1') :
    ∃ r2', parseDirective h req r2 l = .next r2' ∧ synced R r1' r2' := by
  obtain ⟨s0, s1, s2, s3, s4, s5, s6, s7, s8⟩ := hs
  rcases parseDirective_next h req r1 r1' l hn with ⟨hu, e⟩ | ⟨hdock, hc⟩
  · subst e
    rw [parseDirective_unknown h req r1' l hu] at hn
    split_ifs at hn with hlen
    exact ⟨r2, by rw [parseDirective_unknown h req r2 l hu, if_neg hlen], ⟨s0, s1, s2, s3, s4, s5, s6, s7, s8⟩⟩
  · rcases hc with hc | hc | hc | hc | hc | hc | hc | hc | hc
    · obtain ⟨hp, i, hi, e⟩ := hc
      subst e
      have hs' : synced R { r1 with Code := i } { r2 with Code := i } := ⟨s0, s1, Or.inl rfl, s3, s4, s5, s6, s7, s8⟩
      have hlen := next_length h req r1 _ l "code=".toList hn (by decide) hp
      refine ⟨_, ?_, hs'⟩
      rw [parseDirective_code h req r2 l hp, hi]
      exact afterSwitch_ok _ _ hlen (synced_docker R _ _ hR hs' hdock)
    · obtain ⟨hp, v, hv, e⟩ := hc
      subst e
      have hs' : synced R { r1 with From := v } { r2 with From := v } := ⟨s0, s1, s2, s3, s4, s5, Or.inl rfl, s7, s8⟩
      have hlen := next_length h req r1 _ l "from=".toList hn (by decide) hp
      refine ⟨_, ?_, hs'⟩
      rw [parseDirective_from h req r2 l hp, hv]
      exact afterSwitch_ok _ _ hlen (synced_docker R _ _ hR hs' hdock)
    · obtain ⟨hp, e⟩ := hc
      subst e
      have hs' : synced R { r1 with Re := TrimPrefix l "re=".toList } { r2 with Re := TrimPrefix l "re=".toList } := ⟨s0, s1, s2, s3, s4, s5, s6, s7, Or.inl rfl⟩
      have hlen := next_length h req r1 _ l "re=".toList hn (by decide) hp
      refine ⟨_, ?_, hs'⟩
      rw [parseDirective_re h req r2 l hp]
      exact afterSwitch_ok _ _ hlen (synced_docker R _ _ hR hs' hdock)
    · obtain ⟨hp, e⟩ := hc
      subst e
      have hs' : synced R { r1 with Root := TrimPrefix l "root=".toList } { r2 with Root := TrimPrefix l "root=".toList } := ⟨s0, s1, s2, s3, s4, s5, s6, Or.inl rfl, s8⟩
      have hlen := next_length h req r1 _ l "root=".toList hn (by decide) hp
      refine ⟨_, ?_, hs'⟩
      rw [parseDirective_root h req r2 l hp]
      exact afterSwitch_ok _ _ hlen (synced_docker R _ _ hR hs' hdock)
    · obtain ⟨hp, v, hv, e⟩ := hc
      subst e
      have hs' : synced R { r1 with To := v } { r2 with To := v } := ⟨s0, Or.inl rfl, s2, s3, s4, s5, s6, s7, s8⟩
      have hlen := next_length h req r1 _ l "to=".toList hn (by decide) hp
      refine ⟨_, ?_, hs'⟩
      rw [parseDirective_to h req r2 l hp, hv]
      exact afterSwitch_ok _ _ hlen (synced_docker R _ _ hR hs' hdock)
    · obtain ⟨hp, e⟩ := hc
      subst e
      have hs' : synced R { r1 with Typ := TrimPrefix l "type=".toList } { r2 with Typ := TrimPrefix l "type=".toList } := ⟨s0, s1, s2, Or.inl rfl, s4, s5, s6, s7, s8⟩
      have hlen := next_length h req r1 _ l "type=".toList hn (by decide) hp
      refine ⟨_, ?_, hs'⟩
      rw [parseDirective_type h req r2 l hp]
      exact afterSwitch_ok _ _ hlen (synced_docker R _ _ hR hs' hdock)
    · obtain ⟨hp, hv, e⟩ := hc
      subst e
      have hs' : synced R { r1 with Version := "txtv0".toList } { r2 with Version := "txtv0".toList } := ⟨Or.inl rfl, s1, s2, s3, s4, s5, s6, s7, s8⟩
      have hlen := next_length h req r1 _ l "v=".toList hn (by decide) hp
      refine ⟨_, ?_, hs'⟩
      rw [parseDirective_v h req r2 l hp, if_neg (not_not.mpr hv), hv]
      exact afterSwitch_ok _ _ (by decide) (synced_docker R _ _ hR hs' hdock)
    · obtain ⟨hp, e⟩ := hc
      subst e
      have hs' : synced R { r1 with Vcs := TrimPrefix l "vcs=".toList } { r2 with Vcs := TrimPrefix l "vcs=".toList } := ⟨s0, s1, s2, s3, Or.inl rfl, s5, s6, s7, s8⟩
      have hlen := next_length h req r1 _ l "vcs=".toList hn (by decide) hp
      refine ⟨_, ?_, hs'⟩
      rw [parseDirective_vcs h req r2 l hp]
      exact afterSwitch_ok _ _ hlen (synced_docker R _ _ hR hs' hdock)
    · obtain ⟨hp, e⟩ := hc
      subst e
      have hs' : synced R { r1 with Website := TrimPrefix l "website=".toList } { r2 with Website := TrimPrefix l "website=".toList } := ⟨s0, s1, s2, s3, s4, Or.inl rfl, s6, s7, s8⟩
      have hlen := next_length h req r1 _ l "website=".toList hn (by decide) hp
      refine ⟨_, ?_, hs'⟩
      rw [parseDirective_website h req r2 l hp]
      exact afterSwitch_ok _ _ hlen (synced_docker R _ _ hR hs' hdock)

theorem synced_loop (h : Helpers) (req : Request) (R : record)
    (hR : R.Typ ≠ "dockerv2".toList) (s : List Str) :
    ∀ r1 r2 r1', synced R r1 r2 → parseLoop h req r1 s = .next r1' →
      ∃ r2', parseLoop h req r2 s = .next r2' ∧ synced R r1' r2' := by
  induction s with
  | nil =>
    intro r1 r2 r1' hs hl
    simp only [parseLoop] at hl
    cases hl
    exact ⟨r2, rfl, hs⟩
  | cons l rest ih =>
    intro r1 r2 r1' hs hl
    simp only [parseLoop] at hl
    split at hl
    · cases hl
    · rename_i ra ha
      obtain ⟨rb, hb, hs'⟩ := synced_step h req R r1 r2 ra l hR hs ha
      obtain ⟨r2', h2, hs2⟩ := ih ra rb r1' hs' hl
      refine ⟨r2', ?_, hs2⟩
      simp only [parseLoop, hb]
      exact h2

/-- C8, amended. For every text `Parse` accepts from an empty record: `Code` is never 0; it
is 302 when the text has no `code=` directive or its last one carries the integer 0; and
otherwise `Code` is exactly the integer `strconv.Atoi` reads from the last `code=`
directive. No range is checked: with `host` enabled, the text `code=` followed by any
integer text of at most 255 characters that denotes a non-zero `n` is accepted with `Code`
equal to `n`, and so is, for every non-zero `n` of the range of `int`, `code=` followed by
the decimal text of `n`. -/
theorem C8_code_unvalidated (h : Helpers) (req : Request) (c : Config) :
    (∀ str, (Parse h {} str req c).2 = none →
      (Parse h {} str req c).1.Code ≠ 0 ∧
      ((lastDirective "code=".toList (Split str ';') = none ∨
          ∃ l, lastDirective "code=".toList (Split str ';') = some l ∧
            Atoi (TrimPrefix l "code=".toList) = .ok 0) →
        (Parse h {} str req c).1.Code = 302) ∧
      (∀ l, lastDirective "code=".toList (Split str ';') = some l →
        ∃ n, Atoi (TrimPrefix l "code=".toList) = .ok n ∧
          -(2 ^ 63 : Int) ≤ n ∧ n ≤ (2 ^ 63 : Int) - 1 ∧
          (n ≠ 0 → (Parse h {} str req c).1.Code = n))) ∧
    ((∀ a w, h.contains a w = true ↔ w ∈ a) → "host".toList ∈ c.Enable →
      (∀ v n, integerText v = some n → n ≠ 0 → v.length ≤ 255 →
        Parse h {} ("code=".toList ++ v) req c =
          ({ Code := n, Typ := "host".toList }, none)) ∧
      (∀ n : Int, -(2 ^ 63 : Int) ≤ n → n ≤ (2 ^ 63 : Int) - 1 → n ≠ 0 →
        Parse h {} ("code=".toList ++ decimalText n) req c =
          ({ Code := n, Typ := "host".toList }, none))) := by
  have accept : (∀ a w, h.contains a w = true ↔ w ∈ a) → "host".toList ∈ c.Enable →
      ∀ v n, integerText v = some n → n ≠ 0 → v.length ≤ 255 →
        Parse h {} ("code=".toList ++ v) req c =
          ({ Code := n, Typ := "host".toList }, none) := by
    intro hcontains hhost v n hv hne hlen
    have hsemi : ';' ∉ "code=".toList ++ v := by
      intro hmem
      rcases List.mem_append.mp hmem with hm | hm
      · exact absurd hm (by decide)
      · rcases integerText_chars v n hv ';' hm with hx | hx | hx
        · exact absurd hx (by decide)
        · exact absurd hx (by decide)
        · exact absurd hx (by decide)
    have hnodocker : ¬ (([] : Str) = "dockerv2".toList ∧ ([] : Str) = []) :=
      fun hx => absurd hx.1 (by decide)
    have hstep : parseDirective h req {} ("code=".toList ++ v) = .next { Code := n } := by
      rw [parseDirective_code h req {} _ (HasPrefix_append _ _), TrimPrefix_append,
        (Atoi_eq v n).mpr hv]
      exact afterSwitch_ok _ _ hlen hnodocker
    have hres : resolvedType { Code := n } = "host".toList := rfl
    unfold Parse parseDirectives
    rw [Split_of_not_mem _ ';' hsemi]
    simp only [parseLoop, hstep]
    rw [parseFinish_eq, hres, (hcontains _ _).mpr hhost]
    simp only [if_neg hne, if_true]
  constructor
  · intro str hok
    obtain ⟨r', hl, hp⟩ := Parse_ok h {} str req c hok
    have hfield := parseLoop_field h req (fun r => r.Code) "code=".toList
      (fun l x => Atoi (TrimPrefix l "code=".toList) = .ok x)
      (fun r l r' hk hn => (next_Code h req r r' l hn).1 hk)
      (fun r l r' hk hn => (next_Code h req r r' l hn).2 hk) (Split str ';') {} r' hl
    rw [hp, (parseFinish_fields h c r').1]
    refine ⟨?_, ?_, ?_⟩
    · split_ifs with h0
      · decide
      · exact h0
    · rintro (hnone | ⟨l, hsome, hzero⟩)
      · rw [hnone] at hfield
        simp only at hfield
        rw [hfield]
        rfl
      · rw [hsome] at hfield
        simp only at hfield
        rw [hzero] at hfield
        have h0 : r'.Code = 0 := (Except.ok.inj hfield).symm
        rw [if_pos h0]
    · intro l hsome
      rw [hsome] at hfield
      simp only at hfield
      obtain ⟨hlo, hhi⟩ := Atoi_range _ _ hfield
      refine ⟨r'.Code, hfield, hlo, hhi, ?_⟩
      intro hne
      rw [if_neg hne]
  · intro hcontains hhost
    refine ⟨accept hcontains hhost, ?_⟩
    intro n hlo hhi hne
    have hlen := decimalText_length n hlo hhi
    exact accept hcontains hhost (decimalText n) n (integerText_decimalText n hlo hhi) hne
      (by omega)

/-- C8 amended, on a record of the test suite without `code=`, on `code=000777` and on the
decimal texts of 99999 and of the least `int`. -/
theorem C8_code_unvalidated_witness :
    (Parse plainHelpers {} "v=txtv0;to=https://nocode.host.test;type=host".toList {}
        (enabling ["host"])).1.Code = 302 ∧
    Parse plainHelpers {} ("code=".toList ++ "000777".toList) {} (enabling ["host"]) =
      ({ Code := 777, Typ := "host".toList }, none) ∧
    Parse plainHelpers {} ("code=".toList ++ decimalText 99999) {} (enabling ["host"]) =
      ({ Code := 99999, Typ := "host".toList }, none) ∧
    Parse plainHelpers {} ("code=".toList ++ decimalText (-9223372036854775808)) {}
        (enabling ["host"]) =
      ({ Code := -9223372036854775808, Typ := "host".toList }, none) :=
  ⟨((C8_code_unvalidated plainHelpers {} (enabling ["host"])).1
      "v=txtv0;to=https://nocode.host.test;type=host".toList (by decide)).2.1
      (Or.inl (by decide)),
   ((C8_code_unvalidated plainHelpers {} (enabling ["host"])).2
      (by intro a w; simp [plainHelpers]) (by decide)).1 "000777".toList 777
      (by decide) (by decide) (by decide),
   ((C8_code_unvalidated plainHelpers {} (enabling ["host"])).2
      (by intro a w; simp [plainHelpers]) (by decide)).2 99999
      (by decide) (by decide) (by decide),
   ((C8_code_unvalidated plainHelpers {} (enabling ["host"])).2
      (by intro a w; simp [plainHelpers]) (by decide)).2 (-9223372036854775808)
      (by decide) (by decide) (by decide)⟩

/-- C14, amended. Parsing is idempotent for every type but dockerv2: when `Parse` applied
to an empty record returns no error and leaves a `Type` other than `dockerv2`, `Parse`
applied again, with the same text, request and configuration, to the resulting record
returns no error and leaves that record as it was. -/
theorem C14_idempotent_unless_dockerv2 (h : Helpers) (str : Str) (req : Request)
    (c : Config) (hok : (Parse h {} str req c).2 = none)
    (hty : (Parse h {} str req c).1.Typ ≠ "dockerv2".toList) :
    Parse h (Parse h {} str req c).1 str req c = ((Parse h {} str req c).1, none) := by
  obtain ⟨r1, hl, hp⟩ := Parse_ok h {} str req c hok
  have hfin := parseFinish_eq h c r1
  have hR : (Parse h {} str req c).1 =
      { r1 with Code := if r1.Code = 0 then 302 else r1.Code, Typ := resolvedType r1 } := by
    rw [hp, hfin]
  have herr : (if h.contains c.Enable (resolvedType r1) then none
      else some (Error.typeNotEnabled (resolvedType r1))) = none := by
    rw [hp, hfin] at hok
    exact hok
  rw [hR] at hty ⊢
  have hinit : synced
      { r1 with Code := if r1.Code = 0 then 302 else r1.Code, Typ := resolvedType r1 } {}
      { r1 with Code := if r1.Code = 0 then 302 else r1.Code, Typ := resolvedType r1 } :=
    ⟨Or.inr ⟨rfl, rfl⟩, Or.inr ⟨rfl, rfl⟩, Or.inr ⟨rfl, rfl⟩, Or.inr ⟨rfl, rfl⟩,
     Or.inr ⟨rfl, rfl⟩, Or.inr ⟨rfl, rfl⟩, Or.inr ⟨rfl, rfl⟩, Or.inr ⟨rfl, rfl⟩,
     Or.inr ⟨rfl, rfl⟩⟩
  obtain ⟨r2, hl2, hs⟩ := synced_loop h req _ hty (Split str ';') {} _ r1 hinit hl
  obtain ⟨sVersion, sTo, sCode, sTyp, sVcs, sWebsite, sFrom, sRoot, sRe⟩ := hs
  have eVersion : r2.Version = r1.Version := by
    rcases sVersion with e | ⟨-, e⟩ <;> exact e
  have eTo : r2.To = r1.To := by
    rcases sTo with e | ⟨-, e⟩ <;> exact e
  have eVcs : r2.Vcs = r1.Vcs := by
    rcases sVcs with e | ⟨-, e⟩ <;> exact e
  have eWebsite : r2.Website = r1.Website := by
    rcases sWebsite with e | ⟨-, e⟩ <;> exact e
  have eFrom : r2.From = r1.From := by
    rcases sFrom with e | ⟨-, e⟩ <;> exact e
  have eRoot : r2.Root = r1.Root := by
    rcases sRoot with e | ⟨-, e⟩ <;> exact e
  have eRe : r2.Re = r1.Re := by
    rcases sRe with e | ⟨-, e⟩ <;> exact e
  have eCode : (if r2.Code = 0 then (302 : Int) else r2.Code) =
      (if r1.Code = 0 then 302 else r1.Code) := by
    rcases sCode with e | ⟨e0, e⟩
    · rw [e]
    · simp only at e
      rw [e, if_pos e0]
      rfl
  have eTyp : resolvedType r2 = resolvedType r1 := by
    rcases sTyp with e | ⟨e0, e⟩
    · unfold resolvedType
      rw [e]
    · simp only at e
      have hhost : resolvedType r1 = "host".toList := by
        unfold resolvedType
        rw [if_pos e0]
      rw [hhost] at e ⊢
      unfold resolvedType
      rw [e]
      rfl
  unfold Parse parseDirectives
  rw [hl2]
  simp only
  rw [parseFinish_eq, eCode, eTyp, herr, eVersion, eTo, eVcs, eWebsite, eFrom, eRoot, eRe]

/-- C14 amended, on the host record of the test suite. -/
theorem C14_idempotent_unless_dockerv2_witness :
    Parse plainHelpers
        (Parse plainHelpers {} "v=txtv0;to=https://plain.host.test;type=host;code=302".toList
          {} (enabling ["host"])).1
        "v=txtv0;to=https://plain.host.test;type=host;code=302".toList {}
        (enabling ["host"]) =
      ({ Version := "txtv0".toList, To := "https://plain.host.test".toList, Code := 302,
         Typ := "host".toList }, none) :=
  (C14_idempotent_unless_dockerv2 plainHelpers
    "v=txtv0;to=https://plain.host.test;type=host;code=302".toList {} (enabling ["host"])
    (by decide) (by decide)).trans (by decide)

end Minitxtd
